import Mathlib

/-!
# Query evaluation engine of the APS filter plugin

A shallow embedding of `src/filterPlugin/services/queryService.js`: the property
accessor, the predicate evaluator, the condition scanner, the AND/OR tree
evaluator and the entry point, together with the small part of the JavaScript
runtime they rely on (truthiness, property access, `for ... of`, `String(x)`,
`parseFloat`, `toLowerCase`, `includes`, `startsWith`).

Boundary of the embedding.  Values are JSON-like: an object is the finite record
of its own properties.  The names that a JavaScript object inherits from
`Object.prototype` (`objectPrototypeNames`: `constructor`, `toString`,
`__proto__`, ...) are outside the embedding: used as a category or field name
they resolve, in JavaScript, to the inherited member, which the definitions
below do not describe; the statements that say what a property bag stores at a
category and field exclude these names.  Strings are sequences of Unicode scalar
values and `toLowerCase` folds the ASCII letters only, which is what the runtime
does on strings of ASCII characters; the statement about lower-casing as such is
made over `evaluatePropertyValueWith`, which takes the method as a parameter.
Numbers are IEEE binary64 values; `-0` is identified with `0`, which the
program cannot tell apart.  Console output is not modelled.

The last sections embed three methods of the class `Query` of
`src/frontend-react/src/classes/Query.js`: the CSV row of a saved query
(`toCSVRow`, `fromCSVRow`), `hasValidConditions` and
`transformConditionsForBackend`.  `JSON.stringify`, `JSON.parse` and the color
that `getDefaultColor` draws at random are parameters there.
-/

namespace APSFilter

/-! ## JavaScript values -/

/-- JavaScript numbers.  A finite binary64 value is `m * 2 ^ e`; the pair need
not be normalised, comparisons scale both sides to a common exponent. -/
inductive JSNum where
  | nan
  | posInf
  | negInf
  | fin (m : Int) (e : Int)
deriving Repr

/-- JSON-like JavaScript values.  In `obj` the first binding of a key is the
one that is read. -/
inductive JSVal where
  | undefined
  | null
  | bool (b : Bool)
  | num (n : JSNum)
  | str (s : String)
  | arr (xs : List JSVal)
  | obj (fields : List (String × JSVal))
deriving Repr

/-- What a JavaScript `throw` carries: a `TypeError` raised by the runtime (its
message is engine specific and not modelled) or an `Error` created by the
program with `new Error(message)`. -/
inductive JSError where
  | typeError
  | error (message : String)
deriving DecidableEq, Repr

/-- A computation that returns a value or throws. -/
abbrev JS (α : Type) := Except JSError α

deriving instance DecidableEq for Except

/-- The integer `m * 2 ^ (e - e0)` for `e0 ≤ e`: the numerator of `m * 2 ^ e`
over the common denominator `2 ^ (-e0)`. -/
def JSNum.scale (m e e0 : Int) : Int := m * 2 ^ (e - e0).toNat

/-- Whether the number is `NaN` (what `isNaN` returns on a number). -/
def JSNum.isNaN : JSNum → Bool
  | .nan => true
  | _ => false

/-- Strict less-than on numbers, `a < b`; false as soon as one side is `NaN`. -/
def JSNum.lt : JSNum → JSNum → Bool
  | .nan, _ => false
  | _, .nan => false
  | .posInf, _ => false
  | _, .negInf => false
  | .negInf, _ => true
  | .fin _ _, .posInf => true
  | .fin m1 e1, .fin m2 e2 =>
    decide (JSNum.scale m1 e1 (min e1 e2) < JSNum.scale m2 e2 (min e1 e2))

/-- Strict equality on numbers, `a === b`; `NaN` equals nothing. -/
def JSNum.eq : JSNum → JSNum → Bool
  | .posInf, .posInf => true
  | .negInf, .negInf => true
  | .fin m1 e1, .fin m2 e2 =>
    decide (JSNum.scale m1 e1 (min e1 e2) = JSNum.scale m2 e2 (min e1 e2))
  | _, _ => false

/-- The comparison `a <= b` on numbers: `a < b` or `a === b`. -/
def JSNum.le (a b : JSNum) : Bool := JSNum.lt a b || JSNum.eq a b

/-- The number denoted by a natural number literal. -/
def JSNum.ofNat (n : Nat) : JSNum := .fin n 0

/-- ToBoolean: `undefined`, `null`, `false`, `0`, `NaN` and `""` are falsy. -/
def truthy : JSVal → Bool
  | .undefined => false
  | .null => false
  | .bool b => b
  | .num .nan => false
  | .num (.fin m _) => m != 0
  | .num _ => true
  | .str s => s != ""
  | .arr _ => true
  | .obj _ => true

/-- The read `v.key` for one of the fixed keys the program reads (`logic`,
`conditions`, `category`, `field`, `operator`, `value`): a `TypeError` on
`undefined` and `null`, the own property of an object, and `undefined` on
every other value (no array, string, number or boolean has such a property). -/
def getField (v : JSVal) (key : String) : JS JSVal :=
  match v with
  | .undefined => .error .typeError
  | .null => .error .typeError
  | .obj fields => .ok ((fields.lookup key).getD .undefined)
  | _ => .ok .undefined

/-- The test `key in v` for the fixed key `value`: a `TypeError` when `v` is not
an object, false on an array, and the presence of the own key on a record. -/
def hasField (key : String) (v : JSVal) : JS Bool :=
  match v with
  | .obj fields => .ok ((fields.lookup key).isSome)
  | .arr _ => .ok false
  | _ => .error .typeError

/-- The comparison `v === s` against a string constant. -/
def strictEqStr (v : JSVal) (s : String) : Bool :=
  match v with
  | .str t => t == s
  | _ => false

/-- The call `Array.isArray(v)`. -/
def isArray : JSVal → Bool
  | .arr _ => true
  | _ => false

/-- The values a `for (const x of v)` loop visits: the elements of an array,
the code points of a string (each as a one-character string); any other value
is not iterable and the loop raises a `TypeError`. -/
def iterate : JSVal → JS (List JSVal)
  | .arr xs => .ok xs
  | .str s => .ok (s.data.map fun c => .str (String.singleton c))
  | _ => .error .typeError

mutual
/-- Nesting depth of a value: arrays and records count one level. -/
def JSVal.depth : JSVal → Nat
  | .arr xs => depthList xs + 1
  | .obj fs => depthFields fs + 1
  | _ => 0
/-- Largest depth among the elements of an array. -/
def depthList : List JSVal → Nat
  | [] => 0
  | x :: xs => max x.depth (depthList xs)
/-- Largest depth among the property values of a record. -/
def depthFields : List (String × JSVal) → Nat
  | [] => 0
  | (_, v) :: fs => max v.depth (depthFields fs)
end


/-! ## Runtime library: numbers and strings -/

/-- StrWhiteSpaceChar: the white space and line terminator code points that
`parseFloat` skips at the start of its argument. -/
def isStrWhiteSpace (c : Char) : Bool :=
  let n := c.toNat
  n == 0x9 || n == 0xA || n == 0xB || n == 0xC || n == 0xD || n == 0x20 ||
  n == 0xA0 || n == 0x1680 || (0x2000 ≤ n && n ≤ 0x200A) || n == 0x2028 ||
  n == 0x2029 || n == 0x202F || n == 0x205F || n == 0x3000 || n == 0xFEFF

/-- Value of a run of decimal digits. -/
def digitsToNat (ds : List Char) : Nat :=
  ds.foldl (fun a c => 10 * a + (c.toNat - 48)) 0

/-- A lexed StrDecimalLiteral: `Infinity`, or the numeral `digits * 10 ^ exp10`,
with its sign. -/
structure DecimalLiteral where
  neg : Bool
  infinite : Bool
  digits : Nat
  exp10 : Int
deriving Repr, DecidableEq

/-- An optional sign at the head of the input. -/
def lexSign : List Char → Bool × List Char
  | '-' :: cs => (true, cs)
  | '+' :: cs => (false, cs)
  | cs => (false, cs)

/-- The exponent part at the head of the input, `e` or `E`, an optional sign
and at least one digit; an incomplete exponent part is not consumed and counts
as exponent zero. -/
def lexExponent : List Char → Int
  | c :: t =>
    if c == 'e' || c == 'E' then
      let eDs := (lexSign t).2.takeWhile Char.isDigit
      if eDs.isEmpty then 0
      else if (lexSign t).1 then - (digitsToNat eDs : Int) else (digitsToNat eDs : Int)
    else 0
  | [] => 0

/-- The longest prefix of the input that is a StrDecimalLiteral, `none` when no
prefix is one. -/
def lexDecimal (cs : List Char) : Option DecimalLiteral :=
  let neg := (lexSign cs).1
  let r := (lexSign cs).2
  if "Infinity".data.isPrefixOf r then some ⟨neg, true, 0, 0⟩
  else
    let intDs := r.takeWhile Char.isDigit
    let r1 := r.dropWhile Char.isDigit
    let fracDs := match r1 with
      | '.' :: t => t.takeWhile Char.isDigit
      | _ => []
    let r2 := match r1 with
      | '.' :: t => t.dropWhile Char.isDigit
      | _ => r1
    if intDs.isEmpty && fracDs.isEmpty then none
    else some ⟨neg, false, digitsToNat (intDs ++ fracDs), lexExponent r2 - fracDs.length⟩

/-- Number of binary digits of `n`, computed with `fuel` halvings. -/
def bitLengthAux : Nat → Nat → Nat
  | 0, _ => 0
  | fuel + 1, n => if n == 0 then 0 else bitLengthAux fuel (n / 2) + 1

/-- Number of binary digits of `n` (0 for 0). -/
def bitLength (n : Nat) : Nat := bitLengthAux n n

/-- Nearest integer to `n / d`, ties to the even neighbour. -/
def roundHalfEven (n d : Nat) : Nat :=
  let q := n / d
  let r := n % d
  if 2 * r < d then q else if d < 2 * r then q + 1 else if q % 2 == 0 then q else q + 1

/-- The exponent `e` with `2 ^ e ≤ n / d < 2 ^ (e + 1)`, for positive `n`, `d`. -/
def floorLog2Ratio (n d : Nat) : Int :=
  let e0 : Int := (bitLength n : Int) - (bitLength d : Int)
  let reaches : Bool :=
    if 0 ≤ e0 then decide (d * 2 ^ e0.toNat ≤ n) else decide (d ≤ n * 2 ^ (-e0).toNat)
  if reaches then e0 else e0 - 1

/-- The binary64 value nearest to `± n / d` (round to nearest, ties to even; 53
significant bits, least exponent `-1074`, overflow to infinity), for `d > 0`. -/
def toBinary64 (neg : Bool) (n d : Nat) : JSNum :=
  if n == 0 then .fin 0 0
  else
    let p : Int := max (floorLog2Ratio n d - 52) (-1074)
    let m : Nat :=
      if 0 ≤ p then roundHalfEven n (d * 2 ^ p.toNat) else roundHalfEven (n * 2 ^ (-p).toNat) d
    if 1025 ≤ (bitLength m : Int) + p then (if neg then .negInf else .posInf)
    else .fin (if neg then - (m : Int) else (m : Int)) p

/-- The number a lexed literal denotes. -/
def DecimalLiteral.toNumber (l : DecimalLiteral) : JSNum :=
  if l.infinite then (if l.neg then .negInf else .posInf)
  else if 0 ≤ l.exp10 then toBinary64 l.neg (l.digits * 10 ^ l.exp10.toNat) 1
  else toBinary64 l.neg l.digits (10 ^ (-l.exp10).toNat)

/-- The call `parseFloat(s)` on a string: skip leading white space, read the
longest prefix that is a decimal literal, `NaN` when there is none. -/
def parseFloatStr (s : String) : JSNum :=
  match lexDecimal (s.data.dropWhile isStrWhiteSpace) with
  | none => .nan
  | some l => l.toNumber


/-- The decimal digits of `n`, most significant first, produced with `fuel`
divisions; the empty list for 0. -/
def natDigitsAux : Nat → Nat → List Char → List Char
  | 0, _, acc => acc
  | fuel + 1, n, acc =>
    if n == 0 then acc else natDigitsAux fuel (n / 10) (Char.ofNat (48 + n % 10) :: acc)

/-- The decimal digits of `n`, most significant first (`"0"` for 0). -/
def natDigits (n : Nat) : List Char :=
  if n == 0 then ['0'] else natDigitsAux n n []

/-- The decimal exponent `k` of a positive `n / d` below one: the least `k ≥ 0`
with `10 ^ (-k - 1) ≤ n / d`, searched with `fuel` steps. -/
def leadingZerosAux : Nat → Nat → Nat → Nat
  | 0, _, _ => 0
  | fuel + 1, n, d => if d ≤ 10 * n then 0 else leadingZerosAux fuel (10 * n) d + 1

/-- The integer `x` with `10 ^ (x - 1) ≤ n / d < 10 ^ x`, for positive `n`, `d`. -/
def decimalExponent (n d : Nat) : Int :=
  if d ≤ n then ((natDigits (n / d)).length : Int)
  else - (leadingZerosAux 400 n d : Int)

/-- The value `c * 10 ^ x` rounded to binary64. -/
def decimalToBinary64 (c : Nat) (x : Int) : JSNum :=
  if 0 ≤ x then toBinary64 false (c * 10 ^ x.toNat) 1 else toBinary64 false c (10 ^ (-x).toNat)

/-- The `k`-digit decimal `s * 10 ^ (x - k)` that reads back as the positive
binary64 value `m * 2 ^ e`, when there is one: of the two `k`-digit neighbours
of the value the one that reads back, the closer one when both do. -/
def digitsOfLength (m : Nat) (e : Int) (x : Int) (k : Nat) : Option (Nat × Int) :=
  let n := if 0 ≤ e then m * 2 ^ e.toNat else m
  let d := if 0 ≤ e then 1 else 2 ^ (-e).toNat
  let tn := if 0 ≤ (k : Int) - x then n * 10 ^ ((k : Int) - x).toNat else n
  let td := if 0 ≤ (k : Int) - x then d else d * 10 ^ (x - (k : Int)).toNat
  let lo := tn / td
  let okLo := JSNum.eq (decimalToBinary64 lo (x - k)) (.fin m e)
  let okHi := JSNum.eq (decimalToBinary64 (lo + 1) (x - k)) (.fin m e)
  let pick := fun (c : Nat) => if c == 10 ^ k then (10 ^ (k - 1), x + 1) else (c, x)
  if okLo && okHi then some (pick (roundHalfEven tn td))
  else if okLo then some (pick lo)
  else if okHi then some (pick (lo + 1))
  else none

/-- The shortest decimal that reads back as the positive binary64 value
`m * 2 ^ e`: digits `s` and exponent `x` with value `0.s * 10 ^ x`. -/
def shortestDecimal (m : Nat) (e : Int) : Nat × Int :=
  let n := if 0 ≤ e then m * 2 ^ e.toNat else m
  let d := if 0 ≤ e then 1 else 2 ^ (-e).toNat
  let x := decimalExponent n d
  ((List.range 17).findSome? fun i => digitsOfLength m e x (i + 1)).getD (0, 0)

/-- Number::toString for a positive finite value with digits `ds` (no trailing
structure assumed) and decimal exponent `x`. -/
def formatDecimal (ds : List Char) (x : Int) : List Char :=
  let k : Int := ds.length
  if k ≤ x ∧ x ≤ 21 then ds ++ List.replicate (x - k).toNat '0'
  else if 0 < x ∧ x ≤ 21 then ds.take x.toNat ++ '.' :: ds.drop x.toNat
  else if -6 < x ∧ x ≤ 0 then '0' :: '.' :: (List.replicate (-x).toNat '0' ++ ds)
  else
    let expo := (if 0 ≤ x - 1 then '+' else '-') :: natDigits (x - 1).natAbs
    match ds with
    | [] => []
    | [c] => c :: 'e' :: expo
    | c :: rest => c :: '.' :: (rest ++ 'e' :: expo)

/-- Number::toString, the string `String(n)` of a number. -/
def numberToString : JSNum → String
  | .nan => "NaN"
  | .posInf => "Infinity"
  | .negInf => "-Infinity"
  | .fin m e =>
    if m == 0 then "0"
    else
      let sd := shortestDecimal m.natAbs e
      let body := formatDecimal (natDigits sd.1) sd.2
      String.mk (if m < 0 then '-' :: body else body)

mutual
/-- ToString, the string `String(v)`: an array joins its elements with commas
(`null` and `undefined` elements give the empty string), a record gives
`[object Object]`. -/
def toStr : JSVal → String
  | .undefined => "undefined"
  | .null => "null"
  | .bool b => if b then "true" else "false"
  | .num n => numberToString n
  | .str s => s
  | .arr xs => joinElements xs
  | .obj _ => "[object Object]"
/-- The call `Array.prototype.join` with the separator `,`. -/
def joinElements : List JSVal → String
  | [] => ""
  | x :: xs =>
    let head := match x with
      | .undefined => ""
      | .null => ""
      | v => toStr v
    match xs with
    | [] => head
    | _ => head ++ "," ++ joinElements xs
end

/-- The call `parseFloat(v)`: the argument is converted to a string first. -/
def parseFloat (v : JSVal) : JSNum := parseFloatStr (toStr v)

/-- The method `toLowerCase` on strings of ASCII characters: the letters `A`
to `Z` are folded.  A character outside ASCII is left as it is, where the
runtime folds the letters of every script. -/
def toLowerCase (s : String) : String := String.mk (s.data.map Char.toLower)

/-- Whether `needle` occurs in `hay` as a contiguous block. -/
def includesChars (needle : List Char) : List Char → Bool
  | [] => needle.isEmpty
  | c :: t => needle.isPrefixOf (c :: t) || includesChars needle t

/-- The method `s.includes(t)`. -/
def includes (s t : String) : Bool := includesChars t.data s.data

/-- The method `s.startsWith(t)`. -/
def startsWith (s t : String) : Bool := t.data.isPrefixOf s.data

/-! ## The item collection -/

/-- The fields of one category: field name to stored value. -/
abbrev FieldBag := List (String × JSVal)

/-- The property bag of an item: category name to the fields of the category. -/
abbrev PropertyBag := List (String × FieldBag)

/-- One filterable item: the identifier reported for a match and the property
bag, which may be absent.  The item's other attributes are never read. -/
structure Item where
  externalId : String
  properties : Option PropertyBag
deriving Repr

/-! ## `queryService.js` -/

/-- The property accessor `findPropertyValue(properties, category, field)` on
the own properties of the bag: `undefined` when the bag is absent, when it has
no such category or when the category has no such field, and the stored value
otherwise.  The two names are used as property keys, that is, as strings.
This is what the source computes for every name outside
`objectPrototypeNames` below. -/
def findPropertyValue (properties : Option PropertyBag) (category field : JSVal) : JSVal :=
  match properties with
  | none => .undefined
  | some bag =>
    match bag.lookup (toStr category) with
    | none => .undefined
    | some fields =>
      match fields.lookup (toStr field) with
      | none => .undefined
      | some v => v

/-- The names of the members that a plain object inherits from
`Object.prototype`.  The reads `properties[category]` and
`field in properties[category]` of the source follow the prototype chain: for
one of these names that the object does not have as its own they reach the
inherited member, a function of the runtime, which is not a value of the
embedding. -/
def objectPrototypeNames : List String :=
  ["constructor", "__defineGetter__", "__defineSetter__", "hasOwnProperty",
   "__lookupGetter__", "__lookupSetter__", "isPrototypeOf", "propertyIsEnumerable",
   "toString", "valueOf", "__proto__", "toLocaleString"]

/-- Whether a value, used as a property key, names no inherited member. -/
def notInherited (key : JSVal) : Bool := !objectPrototypeNames.contains (toStr key)

/-- The predicate evaluator `evaluatePropertyValue(propertyValue, operator,
testValue)`. -/
def evaluatePropertyValue (propertyValue operator testValue : JSVal) : Bool :=
  match propertyValue with
  | .undefined => false
  | .null => false
  | _ =>
    let propNum := parseFloat propertyValue
    let testNum := parseFloat testValue
    let bothAreNumbers := !propNum.isNaN && !testNum.isNaN
    let stringPropertyValue := toLowerCase (toStr propertyValue)
    let stringTestValue := toLowerCase (toStr testValue)
    if strictEqStr operator "contains" then
      includes stringPropertyValue stringTestValue
    else if strictEqStr operator "does_not_contain" then
      !includes stringPropertyValue stringTestValue
    else if strictEqStr operator "starts_with" then
      startsWith stringPropertyValue stringTestValue
    else if strictEqStr operator "equals" then
      stringPropertyValue == stringTestValue || (bothAreNumbers && JSNum.eq propNum testNum)
    else if strictEqStr operator "greater_than" then
      bothAreNumbers && JSNum.lt testNum propNum
    else if strictEqStr operator "less_than" then
      bothAreNumbers && JSNum.lt propNum testNum
    else if strictEqStr operator "greater_than_or_equal" then
      bothAreNumbers && JSNum.le testNum propNum
    else if strictEqStr operator "less_than_or_equal" then
      bothAreNumbers && JSNum.le propNum testNum
    else false

/-- The predicate evaluator `evaluatePropertyValue` with the method
`toLowerCase` of the runtime as the parameter `lower`, for statements that hold
whatever letters the runtime folds; `evaluatePropertyValue` is this function at
the ASCII fold. -/
def evaluatePropertyValueWith (lower : String → String)
    (propertyValue operator testValue : JSVal) : Bool :=
  match propertyValue with
  | .undefined => false
  | .null => false
  | _ =>
    let propNum := parseFloat propertyValue
    let testNum := parseFloat testValue
    let bothAreNumbers := !propNum.isNaN && !testNum.isNaN
    let stringPropertyValue := lower (toStr propertyValue)
    let stringTestValue := lower (toStr testValue)
    if strictEqStr operator "contains" then
      includes stringPropertyValue stringTestValue
    else if strictEqStr operator "does_not_contain" then
      !includes stringPropertyValue stringTestValue
    else if strictEqStr operator "starts_with" then
      startsWith stringPropertyValue stringTestValue
    else if strictEqStr operator "equals" then
      stringPropertyValue == stringTestValue || (bothAreNumbers && JSNum.eq propNum testNum)
    else if strictEqStr operator "greater_than" then
      bothAreNumbers && JSNum.lt testNum propNum
    else if strictEqStr operator "less_than" then
      bothAreNumbers && JSNum.lt propNum testNum
    else if strictEqStr operator "greater_than_or_equal" then
      bothAreNumbers && JSNum.le testNum propNum
    else if strictEqStr operator "less_than_or_equal" then
      bothAreNumbers && JSNum.le propNum testNum
    else false

/-- Whether one item passes the condition with the given parts: the accessor
followed by the predicate evaluator, as in the body of the scanner's loop. -/
def itemMatches (category field operator value : JSVal) (item : Item) : Bool :=
  evaluatePropertyValue (findPropertyValue item.properties category field) operator value

/-- The condition scanner `evaluateConditionOnModel(condition)` over the item
collection: an invalid condition gives the empty list, a valid one the
identifiers of the items that pass, in item order. -/
def evaluateConditionOnModel (items : List Item) (condition : JSVal) : JS (List String) := do
  let category ← getField condition "category"
  let field ← getField condition "field"
  let operator ← getField condition "operator"
  if !truthy category || !truthy field || !truthy operator then
    pure []
  else do
    let hasValue ← hasField "value" condition
    if !hasValue then
      pure []
    else do
      let value ← getField condition "value"
      pure ((items.filter (itemMatches category field operator value)).map (·.externalId))

/-- The loop of `evaluateAndQuery`: the running list `resultIds` is filtered by
the result of each child in turn, and the loop stops at an empty list. -/
def andLoop (evalChild : JSVal → JS (List String)) :
    List JSVal → List String → JS (List String)
  | [], resultIds => pure resultIds
  | condition :: rest, resultIds =>
    if resultIds.isEmpty then pure resultIds
    else do
      let ids ← evalChild condition
      andLoop evalChild rest (resultIds.filter fun id => ids.contains id)

/-- Adding identifiers to a JavaScript `Set` kept in insertion order. -/
def setAddAll (set : List String) (ids : List String) : List String :=
  ids.foldl (fun acc id => if acc.contains id then acc else acc ++ [id]) set

/-- The loop of `evaluateOrQuery`: the result of every child is added to the
set `resultIds`. -/
def orLoop (evalChild : JSVal → JS (List String)) :
    List JSVal → List String → JS (List String)
  | [], resultIds => pure resultIds
  | condition :: rest, resultIds => do
    let ids ← evalChild condition
    orLoop evalChild rest (setAddAll resultIds ids)

/-- The body shared by the two loops: a child with truthy `logic` and
`conditions` is a nested query, evaluated as an AND query when its `logic` is
`'AND'` and as an OR query otherwise; any other child goes to the scanner. -/
def evalChild (andQuery orQuery : JSVal → JS (List String)) (items : List Item)
    (condition : JSVal) : JS (List String) := do
  let logic ← getField condition "logic"
  let conditions ← getField condition "conditions"
  if truthy logic && truthy conditions then
    if strictEqStr logic "AND" then andQuery condition else orQuery condition
  else
    evaluateConditionOnModel items condition

mutual
/-- The function `evaluateAndQuery` with a bound on the nesting it may descend;
the bound exhausted, the iteration is reported as a `TypeError`, which
`evaluateAndQuery` below is shown never to reach. -/
def evalAnd : Nat → List Item → JSVal → JS (List String)
  | 0, _, _ => .error .typeError
  | fuel + 1, items, query => do
    let conditions ← getField query "conditions"
    let children ← iterate conditions
    andLoop (evalChild (evalAnd fuel items) (evalOr fuel items) items) children
      (items.map (·.externalId))
/-- The function `evaluateOrQuery` with a bound on the nesting it may descend. -/
def evalOr : Nat → List Item → JSVal → JS (List String)
  | 0, _, _ => .error .typeError
  | fuel + 1, items, query => do
    let conditions ← getField query "conditions"
    let children ← iterate conditions
    orLoop (evalChild (evalAnd fuel items) (evalOr fuel items) items) children []
end

/-- The AND query `evaluateAndQuery(query)`: start from every identifier and
keep those every child returns.  The nesting bound is the depth of the query. -/
def evaluateAndQuery (items : List Item) (query : JSVal) : JS (List String) :=
  evalAnd (query.depth + 1) items query

/-- The OR query `evaluateOrQuery(query)`: the identifiers some child returns,
without repetition, in order of first occurrence. -/
def evaluateOrQuery (items : List Item) (query : JSVal) : JS (List String) :=
  evalOr (query.depth + 1) items query

/-- The single condition query `evaluateSingleCondition(query)`: the condition
is `query.conditions`, or its first element when that is an array. -/
def evaluateSingleCondition (items : List Item) (query : JSVal) : JS (List String) := do
  let conditions ← getField query "conditions"
  let condition := match conditions with
    | .arr xs => xs.head?.getD .undefined
    | c => c
  if !truthy condition then
    pure []
  else do
    let category ← getField condition "category"
    let field ← getField condition "field"
    let operator ← getField condition "operator"
    if !truthy category || !truthy field || !truthy operator then
      pure []
    else do
      let hasValue ← hasField "value" condition
      if !hasValue then
        pure []
      else
        evaluateConditionOnModel items condition

/-- The dispatcher `evaluateQueryOnModel(query)` over the item collection. -/
def evaluateQueryOnModel (items : List Item) (query : JSVal) : JS (List String) :=
  if items.isEmpty then pure []
  else do
    let conditions ← getField query "conditions"
    let logic ← getField query "logic"
    let single := truthy conditions && !truthy logic &&
      (match conditions with
        | .arr xs => xs.length == 1
        | _ => true)
    if single then evaluateSingleCondition items query
    else if strictEqStr logic "AND" then evaluateAndQuery items query
    else if strictEqStr logic "OR" then evaluateOrQuery items query
    else evaluateAndQuery items query

/-- What `executeQuery` resolves to: the success shape `{success: true, dbIds,
message, count}` or the failure shape `{success: false, error, dbIds: []}`,
where `error` is the message of the caught exception. -/
inductive Response where
  | success (dbIds : List String) (message : String) (count : Nat)
  | failure (error : JSError) (dbIds : List String)
deriving DecidableEq, Repr

/-- The body of the `try` block of `executeQuery`: the returned identifiers and
the new content of the module variable `_modelDataItems`. -/
def executeQueryBody (cached modelData : List Item) (requestBody : JSVal) :
    JS (List String × List Item) := do
  if !truthy requestBody then
    throw (.error "Request body is missing or empty")
  else do
    let items ←
      if cached.length == 0 then
        if modelData.length == 0 then
          throw (.error "Model data is empty or not initialized")
        else pure modelData
      else pure cached
    let matchingDbIds ← evaluateQueryOnModel items requestBody
    pure (matchingDbIds, items)

/-- The entry point `executeQuery(requestBody)`, with the module variable
`_modelDataItems` (`cached`) and the list `getModelData()` returns
(`modelData`) made explicit; the second component is `_modelDataItems` after
the call. -/
def executeQuery (cached modelData : List Item) (requestBody : JSVal) :
    Response × List Item :=
  match executeQueryBody cached modelData requestBody with
  | .ok (matchingDbIds, items) =>
    (.success matchingDbIds "Query executed successfully" matchingDbIds.length, items)
  | .error e =>
    (.failure e [],
      if truthy requestBody && cached.length == 0 && modelData.length != 0 then modelData
      else cached)

/-- The statement `try { body } catch (error) { handler }`: the handler runs on
what the body throws, and what the handler throws is thrown by the statement. -/
def tryCatch {α : Type} (body : JS α) (handler : JSError → JS α) : JS α :=
  match body with
  | .ok a => .ok a
  | .error e => handler e

/-- The call `executeQuery(requestBody)` as the statement the source writes, a
computation that may throw: the `try` block, which ends with the success
response, and the `catch` handler, which builds the failure response from
`error.message` (every value the program throws is an `Error` object, which has
a message).  The second component is `_modelDataItems` after the call, assigned
in the `try` block before the evaluation starts. -/
def executeQueryTry (cached modelData : List Item) (requestBody : JSVal) :
    JS (Response × List Item) :=
  tryCatch
    (do
      let (matchingDbIds, items) ← executeQueryBody cached modelData requestBody
      pure (.success matchingDbIds "Query executed successfully" matchingDbIds.length, items))
    (fun error =>
      pure (.failure error [],
        if truthy requestBody && cached.length == 0 && modelData.length != 0 then modelData
        else cached))

/-! ## `Query.js`: the CSV form of a saved query -/

/-- The fields of a `Query` that its CSV row carries.  The other fields
(`isActive`, the two dates, `externalIds`, `dbIds`) are set afresh by the
constructor and are not written to the row. -/
structure Query where
  id : String
  name : String
  description : String
  conditions : JSVal
  color : String

/-- The colors `getDefaultColor` picks from. -/
def defaultColors : List String :=
  ["#ff0000", "#00ff00", "#0000ff", "#ffff00", "#ff00ff", "#00ffff"]

/-- The helper `escapeCsv` of `toCSVRow` on a string: a value with a comma, a
double quote or a line feed is put between double quotes with each of its
double quotes doubled. -/
def escapeCsv (value : String) : String :=
  if value.data.any (fun c => c == ',' || c == '"' || c == '\n') then
    String.mk ('"' :: ((value.data.flatMap fun c => if c == '"' then ['"', '"'] else [c]) ++
      ['"']))
  else value

/-- The method `toCSVRow`: the five escaped fields joined by commas; the
conditions are written as their JSON text, `JSON.stringify` being a parameter. -/
def toCSVRow (stringify : JSVal → String) (q : Query) : String :=
  String.mk ((escapeCsv q.id).data ++ ',' :: ((escapeCsv q.name).data ++
    ',' :: ((escapeCsv q.description).data ++
    ',' :: ((escapeCsv (stringify q.conditions)).data ++ ',' :: (escapeCsv q.color).data))))

/-- The loop of `parseCSVRow`: the characters still to read, the flag
`inQuotes`, the characters of `currentField` and the fields of `result`. -/
def parseCSVLoop : List Char → Bool → List Char → List String → List String
  | [], _, currentField, result => result ++ [String.mk currentField]
  | c :: rest, inQuotes, currentField, result =>
    if c == '"' then
      match rest with
      | d :: rest' =>
        if d == '"' then parseCSVLoop rest' inQuotes (currentField ++ ['"']) result
        else parseCSVLoop (d :: rest') (!inQuotes) currentField result
      | [] => parseCSVLoop [] (!inQuotes) currentField result
    else if c == ',' && !inQuotes then
      parseCSVLoop rest inQuotes [] (result ++ [String.mk currentField])
    else parseCSVLoop rest inQuotes (currentField ++ [c]) result

/-- The helper `parseCSVRow` of `fromCSVRow`. -/
def parseCSVRow (row : String) : List String :=
  parseCSVLoop row.data false [] []

/-- The static method `fromCSVRow`: the row is split into fields, the fourth is
parsed as JSON (`JSON.parse` is a parameter), and the constructor replaces an
empty or missing color by `defaultColor`, the color `getDefaultColor` picks.
With fewer than four fields `JSON.parse(undefined)` throws.  Every failure is
thrown again as an `Error` whose message starts as given here. -/
def fromCSVRow (parse : String → JS JSVal) (defaultColor : String) (csvRow : String) :
    JS Query :=
  match parseCSVRow csvRow with
  | id :: name :: description :: conditionsJson :: rest =>
    match parse conditionsJson with
    | .error _ => .error (.error "Failed to parse query from CSV")
    | .ok conditions =>
      .ok { id := id, name := name, description := description, conditions := conditions,
            color := match rest.head? with
              | some color => if color == "" then defaultColor else color
              | none => defaultColor }
  | _ => .error (.error "Failed to parse query from CSV")

/-! ## `Query.js`: validation and the transformation for the backend -/

/-- The test `v.trim() !== ''` on a value that is not `undefined` or `null`:
a string passes when one of its characters is not white space (`trim` removes
white space and line terminators at both ends); no other value of the model
has a method `trim`, and the call raises a `TypeError`. -/
def trimNotEmpty : JSVal → JS Bool
  | .str s => .ok (s.data.any fun c => !isStrWhiteSpace c)
  | _ => .error .typeError

/-- The test `v !== undefined`. -/
def notUndefined : JSVal → Bool
  | .undefined => false
  | _ => true

/-- Truthiness of `c.category && c.field && c.operator`, the test
`transformConditionsForBackend` uses for a simple condition object. -/
def leafLike (c : JSVal) : JS Bool := do
  let category ← getField c "category"
  let field ← getField c "field"
  let operator ← getField c "operator"
  pure (truthy category && truthy field && truthy operator)

/-- Truthiness of `c.category && c.field && c.operator && c.value !== undefined`. -/
def hasLeafParts (c : JSVal) : JS Bool := do
  let isLeaf ← leafLike c
  let value ← getField c "value"
  pure (isLeaf && notUndefined value)

/-- Truthiness of `c.category.trim() !== '' && c.field.trim() !== '' &&
c.operator.trim() !== ''`, the operands evaluated from left to right. -/
def partsNotBlank (c : JSVal) : JS Bool := do
  let category ← getField c "category"
  let categoryOk ← trimNotEmpty category
  if !categoryOk then pure false
  else do
    let field ← getField c "field"
    let fieldOk ← trimNotEmpty field
    if !fieldOk then pure false
    else do
      let operator ← getField c "operator"
      trimNotEmpty operator

/-- The call `xs.every(f)`: stops at the first element `f` rejects. -/
def every (f : JSVal → JS Bool) : List JSVal → JS Bool
  | [] => .ok true
  | x :: xs =>
    match f x with
    | .ok true => every f xs
    | other => other

/-- The test `v.length > 0 && v.every(f)` on an array `v`; it is reached for
arrays only. -/
def nonEmptyEvery (f : JSVal → JS Bool) : JSVal → JS Bool
  | .arr xs => if xs.length > 0 then every f xs else pure false
  | _ => pure false

/-- The body of `hasValidConditions`, the method itself passed as `self` for
the recursive calls; the result is the truthiness of the returned value (a
truthy return is always the boolean `true`). -/
def hasValidStep (self : JSVal → JS Bool) (conditions : JSVal) : JS Bool :=
  if !truthy conditions then pure false
  else do
    let inner ← getField conditions "conditions"
    let logic ← getField conditions "logic"
    if truthy inner && !truthy logic && !isArray inner then do
      let parts ← hasLeafParts inner
      if parts then partsNotBlank inner else pure false
    else if truthy inner && !truthy logic && isArray inner then
      nonEmptyEvery self inner
    else do
      let parts ← hasLeafParts conditions
      if parts then partsNotBlank conditions
      else if truthy logic && truthy inner && isArray inner then
        nonEmptyEvery self inner
      else if isArray conditions then
        nonEmptyEvery self conditions
      else pure false

/-- The method `hasValidConditions` with a bound on the nesting it may descend;
the bound exhausted is reported as a `TypeError`, which `hasValidConditions`
below is shown never to reach. -/
def hasValidFuel : Nat → JSVal → JS Bool
  | 0, _ => .error .typeError
  | fuel + 1, conditions => hasValidStep (hasValidFuel fuel) conditions

/-- The method `hasValidConditions(conditions)`; the nesting bound is the depth
of the value. -/
def hasValidConditions (conditions : JSVal) : JS Bool :=
  hasValidFuel (conditions.depth + 1) conditions

/-- The single condition shortcut `{conditions: c}`. -/
def wrapper (c : JSVal) : JSVal := .obj [("conditions", c)]

/-- The last two cases of `transformConditionsForBackend` and its fallback: a
simple condition object is wrapped; an object whose `conditions` is an array
gives the wrapper of a sole simple condition or, with more than one element,
a group under `logic || "AND"`; every other value is returned as it is. -/
def transformObject (conditions inner logic : JSVal) : JS JSVal := do
  let isLeaf ← leafLike conditions
  if isLeaf then pure (wrapper conditions)
  else
    match inner with
    | .arr [single] => do
      let soleIsLeaf ← leafLike single
      if soleIsLeaf then pure (wrapper single) else pure conditions
    | .arr (_ :: _ :: _) =>
      pure (.obj [("logic", if truthy logic then logic else .str "AND"), ("conditions", inner)])
    | _ => pure conditions

/-- The method `transformConditionsForBackend(conditions)`. -/
def transformConditionsForBackend (conditions : JSVal) : JS JSVal := do
  let logic ← getField conditions "logic"
  let inner ← getField conditions "conditions"
  if truthy logic && truthy inner then pure conditions
  else if truthy inner && !isArray inner then pure conditions
  else
    match conditions with
    | .arr [single] => do
      let soleIsLeaf ← leafLike single
      if soleIsLeaf then pure (wrapper single) else transformObject conditions inner logic
    | .arr (_ :: _ :: _) => pure (.obj [("logic", .str "AND"), ("conditions", conditions)])
    | _ => transformObject conditions inner logic

/-! ## Auxiliary definitions for the statements -/

/-- How a child of a query is evaluated: `evalChild` over the two query
functions themselves. -/
def evaluateChild (items : List Item) (condition : JSVal) : JS (List String) :=
  evalChild (evaluateAndQuery items) (evaluateOrQuery items) items condition

/-- A leaf condition object with string parts. -/
def leaf (category field operator value : String) : JSVal :=
  .obj [("category", .str category), ("field", .str field), ("operator", .str operator),
    ("value", .str value)]

/-- The items of the scenarios of the specification: `a`, `b`, `c` and the item
`d` whose area is stored as the number 20. -/
def scenarioItems : List Item :=
  [⟨"a", some [("Constraints", [("Level", .str "Level 1")])]⟩,
   ⟨"b", some [("Constraints", [("Level", .str "Level 2")])]⟩,
   ⟨"c", some [("Constraints", [("Level", .str "Level 1")]),
      ("Dimensions", [("Area", .str "50")])]⟩,
   ⟨"d", some [("Dimensions", [("Area", .num (JSNum.ofNat 20))])]⟩]

/-- The result of a child, the empty list when its evaluation throws. -/
def childIds (items : List Item) (condition : JSVal) : List String :=
  match evaluateChild items condition with
  | .ok ids => ids
  | .error _ => []

/-- The nested scenario of the specification: level 1 and area above 10. -/
def nestedScenarioQuery : JSVal :=
  .obj [("logic", .str "AND"), ("conditions",
    .arr [leaf "Constraints" "Level" "equals" "Level 1",
          leaf "Dimensions" "Area" "greater_than" "10"])]

/-- The children of an OR query used as a scenario: area 20, level 1, and an
empty AND group. -/
def unionScenarioChildren : List JSVal :=
  [leaf "Dimensions" "Area" "equals" "20", leaf "Constraints" "Level" "equals" "Level 1",
   .obj [("logic", .str "AND"), ("conditions", .arr [])]]

/-- An OR query over `unionScenarioChildren`. -/
def unionScenarioQuery : JSVal :=
  .obj [("logic", .str "OR"), ("conditions", .arr unionScenarioChildren)]

/-- Two items that share the identifier `a`, on different levels. -/
def duplicateIdItems : List Item :=
  [⟨"a", some [("Constraints", [("Level", .str "Level 1")])]⟩,
   ⟨"a", some [("Constraints", [("Level", .str "Level 2")])]⟩]

/-- A condition object with the four parts given as values. -/
def conditionOf (category field operator value : JSVal) : JSVal :=
  .obj [("category", category), ("field", field), ("operator", operator), ("value", value)]

/-- Whether a looked-up value is present: neither `undefined` nor `null`. -/
def isPresent : JSVal → Bool
  | .undefined => false
  | .null => false
  | _ => true

/-- A second collection, used where the supplied collection changes between
calls: one item `z` on level 1. -/
def otherItems : List Item :=
  [⟨"z", some [("Constraints", [("Level", .str "Level 1")])]⟩]

/-- The eight operator names of the closed set. -/
def operatorNames : List String :=
  ["equals", "contains", "does_not_contain", "starts_with", "greater_than", "less_than",
   "greater_than_or_equal", "less_than_or_equal"]

/-- The AND group `{logic: 'AND', conditions: children}`. -/
def andGroup (children : List JSVal) : JSVal :=
  .obj [("logic", .str "AND"), ("conditions", .arr children)]

/-- The OR group `{logic: 'OR', conditions: children}`. -/
def orGroup (children : List JSVal) : JSVal :=
  .obj [("logic", .str "OR"), ("conditions", .arr children)]

/-- A group whose `logic` is neither `'AND'` nor `'OR'`: level 1 and area
above 10 under the logic `'XOR'`. -/
def xorScenarioGroup : JSVal :=
  .obj [("logic", .str "XOR"), ("conditions",
    .arr [leaf "Constraints" "Level" "equals" "Level 1",
          leaf "Dimensions" "Area" "greater_than" "10"])]

/-- One item whose property bag has a category with the empty name. -/
def emptyCategoryItems : List Item :=
  [⟨"e", some [("", [("x", .str "v")])]⟩]

/-- A string that is not made of double quotes only: it is empty or has another
character. -/
def notOnlyQuotes (s : String) : Bool :=
  s.data.isEmpty || s.data.any (fun c => c != '"')

/-- A query whose name is one double quote. -/
def quoteNamedQuery : Query :=
  { id := "query_1", name := "\"", description := "", conditions := .obj [],
    color := "#ff0000" }

/-- A stand-in for `JSON.stringify` on the empty object. -/
def stringifyEmptyObject : JSVal → String := fun _ => "{}"

/-- A stand-in for `JSON.parse` that reads the text of the empty object. -/
def parseEmptyObject : String → JS JSVal := fun text =>
  if text == "{}" then .ok (.obj []) else .error .typeError

/-- The array whose one element is the AND group of the nested scenario. -/
def arrayOfOneGroup : JSVal := .arr [nestedScenarioQuery]

/-! ## Nesting depth and the bound of the recursion -/

theorem depth_le_depthList {c : JSVal} {xs : List JSVal} (h : c ∈ xs) :
    c.depth ≤ depthList xs := by
  induction xs with
  | nil => cases h
  | cons x xs ih =>
    rw [depthList]
    rcases List.mem_cons.mp h with rfl | h
    · exact le_max_left _ _
    · exact le_trans (ih h) (le_max_right _ _)

theorem depth_le_depthFields {k : String} {v : JSVal} {fs : List (String × JSVal)}
    (h : fs.lookup k = some v) : v.depth ≤ depthFields fs := by
  induction fs with
  | nil => simp at h
  | cons p fs ih =>
    obtain ⟨k', v'⟩ := p
    rw [depthFields]
    rw [List.lookup_cons] at h
    split at h
    · cases h; exact le_max_left _ _
    · exact le_trans (ih h) (le_max_right _ _)

/-- A child that the loops visit is either a one-character string or lies at
least two levels below the query. -/
theorem child_depth {query conditions c : JSVal} {children : List JSVal}
    (hq : getField query "conditions" = .ok conditions)
    (hi : iterate conditions = .ok children) (hc : c ∈ children) :
    (∃ s, c = .str s) ∨ c.depth + 2 ≤ query.depth := by
  cases conditions with
  | str s =>
    left
    simp only [iterate, Except.ok.injEq] at hi
    subst hi
    obtain ⟨ch, _, rfl⟩ := List.mem_map.mp hc
    exact ⟨_, rfl⟩
  | arr xs =>
    right
    simp only [iterate, Except.ok.injEq] at hi
    subst hi
    cases query with
    | obj fs =>
      simp only [getField, Except.ok.injEq] at hq
      cases hl : fs.lookup "conditions" with
      | none => simp [hl] at hq
      | some v =>
        simp only [hl, Option.getD_some] at hq
        subst hq
        have h1 := depth_le_depthList hc
        have h2 := depth_le_depthFields hl
        simp only [JSVal.depth] at h2 ⊢
        omega
    | undefined => simp [getField] at hq
    | null => simp [getField] at hq
    | bool b => simp [getField] at hq
    | num n => simp [getField] at hq
    | str s => simp [getField] at hq
    | arr ys => simp [getField] at hq
  | undefined => simp [iterate] at hi
  | null => simp [iterate] at hi
  | bool b => simp [iterate] at hi
  | num n => simp [iterate] at hi
  | obj fs => simp [iterate] at hi

theorem evalChild_str (a1 o1 a2 o2 : JSVal → JS (List String)) (items : List Item) (s : String) :
    evalChild a1 o1 items (.str s) = evalChild a2 o2 items (.str s) := by
  simp [evalChild, getField, truthy, bind, Except.bind]

theorem evalChild_congr {a1 o1 a2 o2 : JSVal → JS (List String)} (items : List Item)
    (c : JSVal) (ha : a1 c = a2 c) (ho : o1 c = o2 c) :
    evalChild a1 o1 items c = evalChild a2 o2 items c := by
  simp only [evalChild, ha, ho]

theorem andLoop_congr {e1 e2 : JSVal → JS (List String)} (cs : List JSVal)
    (h : ∀ c ∈ cs, e1 c = e2 c) (acc : List String) :
    andLoop e1 cs acc = andLoop e2 cs acc := by
  induction cs generalizing acc with
  | nil => rfl
  | cons c cs ih =>
    simp only [andLoop]
    rw [h c (List.mem_cons_self _ _)]
    split
    · rfl
    · cases e2 c with
      | error e => rfl
      | ok ids =>
        simp only [bind, Except.bind]
        exact ih (fun c hc => h c (List.mem_cons_of_mem _ hc)) _

theorem orLoop_congr {e1 e2 : JSVal → JS (List String)} (cs : List JSVal)
    (h : ∀ c ∈ cs, e1 c = e2 c) (acc : List String) :
    orLoop e1 cs acc = orLoop e2 cs acc := by
  induction cs generalizing acc with
  | nil => rfl
  | cons c cs ih =>
    simp only [orLoop]
    rw [h c (List.mem_cons_self _ _)]
    cases e2 c with
    | error e => rfl
    | ok ids =>
      simp only [bind, Except.bind]
      exact ih (fun c hc => h c (List.mem_cons_of_mem _ hc)) _

/-- Any two bounds above the depth of the query give the same result. -/
theorem eval_fuel (items : List Item) :
    ∀ (f g : Nat) (query : JSVal), query.depth < f → query.depth < g →
      evalAnd f items query = evalAnd g items query ∧
      evalOr f items query = evalOr g items query := by
  intro f
  induction f with
  | zero => intro g query h; omega
  | succ f ih =>
    intro g query hf hg
    cases g with
    | zero => omega
    | succ g =>
      have key : ∀ conditions children, getField query "conditions" = .ok conditions →
          iterate conditions = .ok children → ∀ c ∈ children,
          evalChild (evalAnd f items) (evalOr f items) items c =
          evalChild (evalAnd g items) (evalOr g items) items c := by
        intro conditions children hq hi c hc
        rcases child_depth hq hi hc with ⟨s, rfl⟩ | hd
        · exact evalChild_str _ _ _ _ items s
        · have := ih g c (by omega) (by omega)
          exact evalChild_congr items c this.1 this.2
      constructor
      · simp only [evalAnd]
        cases hq : getField query "conditions" with
        | error e => rfl
        | ok conditions =>
          cases hi : iterate conditions with
          | error e => simp [bind, Except.bind, hi]
          | ok children =>
            simp only [bind, Except.bind, hi]
            exact andLoop_congr children (key conditions children hq hi) _
      · simp only [evalOr]
        cases hq : getField query "conditions" with
        | error e => rfl
        | ok conditions =>
          cases hi : iterate conditions with
          | error e => simp [bind, Except.bind, hi]
          | ok children =>
            simp only [bind, Except.bind, hi]
            exact orLoop_congr children (key conditions children hq hi) _

/-- The recursion equation of `evaluateAndQuery`, as the source writes it: the
children are evaluated by the two query functions themselves. -/
theorem evaluateAndQuery_eq (items : List Item) (query : JSVal) :
    evaluateAndQuery items query =
      (do
        let conditions ← getField query "conditions"
        let children ← iterate conditions
        andLoop (evaluateChild items) children (items.map (·.externalId))) := by
  simp only [evaluateAndQuery, evalAnd]
  cases hq : getField query "conditions" with
  | error e => rfl
  | ok conditions =>
    cases hi : iterate conditions with
    | error e => simp [bind, Except.bind, hi]
    | ok children =>
      simp only [bind, Except.bind, hi]
      apply andLoop_congr
      intro c hc
      rcases child_depth hq hi hc with ⟨s, rfl⟩ | hd
      · exact evalChild_str _ _ _ _ items s
      · have := eval_fuel items query.depth (c.depth + 1) c (by omega) (by omega)
        exact evalChild_congr items c this.1 this.2

/-- The recursion equation of `evaluateOrQuery`. -/
theorem evaluateOrQuery_eq (items : List Item) (query : JSVal) :
    evaluateOrQuery items query =
      (do
        let conditions ← getField query "conditions"
        let children ← iterate conditions
        orLoop (evaluateChild items) children []) := by
  simp only [evaluateOrQuery, evalOr]
  cases hq : getField query "conditions" with
  | error e => rfl
  | ok conditions =>
    cases hi : iterate conditions with
    | error e => simp [bind, Except.bind, hi]
    | ok children =>
      simp only [bind, Except.bind, hi]
      apply orLoop_congr
      intro c hc
      rcases child_depth hq hi hc with ⟨s, rfl⟩ | hd
      · exact evalChild_str _ _ _ _ items s
      · have := eval_fuel items query.depth (c.depth + 1) c (by omega) (by omega)
        exact evalChild_congr items c this.1 this.2

theorem andLoop_filter (e : JSVal → JS (List String)) (r : JSVal → List String)
    (cs : List JSVal) (h : ∀ c ∈ cs, e c = .ok (r c)) (acc : List String) :
    andLoop e cs acc = .ok (acc.filter fun id => decide (∀ c ∈ cs, id ∈ r c)) := by
  induction cs generalizing acc with
  | nil => simp [andLoop, pure, Except.pure]
  | cons c cs ih =>
    simp only [andLoop]
    split
    · rename_i hemp
      have : acc = [] := by simpa using hemp
      subst this
      rfl
    · rw [h c (List.mem_cons_self _ _)]
      simp only [bind, Except.bind]
      rw [ih (fun c hc => h c (List.mem_cons_of_mem _ hc)), List.filter_filter]
      congr 1
      apply List.filter_congr
      intro id _
      simp [Bool.and_comm]

/-- Claim C1: an AND group over a child array, all of whose children evaluate
without throwing, returns the identifier list of the collection (item order)
restricted to the identifiers that occur in the result of every child. -/
theorem and_group_semantics (items : List Item) (query : JSVal) (children : List JSVal)
    (result : JSVal → List String)
    (hq : getField query "conditions" = .ok (.arr children))
    (hr : ∀ c ∈ children, evaluateChild items c = .ok (result c)) :
    evaluateAndQuery items query =
      .ok ((items.map (·.externalId)).filter fun id => decide (∀ c ∈ children, id ∈ result c)) := by
  rw [evaluateAndQuery_eq, hq]
  simp only [bind, Except.bind, iterate]
  exact andLoop_filter _ _ _ hr _

theorem and_group_semantics_witness :
    evaluateAndQuery scenarioItems nestedScenarioQuery = .ok ["c"] :=
  (and_group_semantics scenarioItems nestedScenarioQuery
    [leaf "Constraints" "Level" "equals" "Level 1", leaf "Dimensions" "Area" "greater_than" "10"]
    (childIds scenarioItems) rfl (by decide)).trans (by decide)

theorem mem_setAddAll (ids : List String) (acc : List String) (x : String) :
    x ∈ setAddAll acc ids ↔ x ∈ acc ∨ x ∈ ids := by
  induction ids generalizing acc with
  | nil => simp [setAddAll]
  | cons a ids ih =>
    have step : setAddAll acc (a :: ids) =
        setAddAll (if acc.contains a then acc else acc ++ [a]) ids := rfl
    rw [step, ih]
    have hc : acc.contains a = decide (a ∈ acc) := by simp
    by_cases ha : a ∈ acc
    · rw [hc, decide_eq_true ha, if_pos rfl]
      constructor
      · rintro (h | h)
        · exact Or.inl h
        · exact Or.inr (List.mem_cons_of_mem _ h)
      · rintro (h | h)
        · exact Or.inl h
        · rcases List.mem_cons.mp h with rfl | h
          · exact Or.inl ha
          · exact Or.inr h
    · rw [hc, decide_eq_false ha, if_neg (by simp)]
      simp only [List.mem_append, List.mem_singleton, List.mem_cons]
      tauto

theorem nodup_setAddAll (ids : List String) (acc : List String) (h : acc.Nodup) :
    (setAddAll acc ids).Nodup := by
  induction ids generalizing acc with
  | nil => simpa [setAddAll] using h
  | cons a ids ih =>
    have step : setAddAll acc (a :: ids) =
        setAddAll (if acc.contains a then acc else acc ++ [a]) ids := rfl
    rw [step]
    apply ih
    have hc : acc.contains a = decide (a ∈ acc) := by simp
    by_cases ha : a ∈ acc
    · rw [hc, decide_eq_true ha, if_pos rfl]
      exact h
    · rw [hc, decide_eq_false ha, if_neg (by simp)]
      exact List.Nodup.append h (List.nodup_singleton a) (by simpa using ha)

theorem setAddAll_eq_loop (ids : List String) (acc : List String) :
    setAddAll acc ids = List.eraseDups.loop ids acc.reverse := by
  induction ids generalizing acc with
  | nil => simp [setAddAll, List.eraseDups.loop]
  | cons a ids ih =>
    have step : setAddAll acc (a :: ids) =
        setAddAll (if acc.contains a then acc else acc ++ [a]) ids := rfl
    rw [step, ih, List.eraseDups.loop]
    by_cases ha : a ∈ acc
    · simp [ha]
    · simp [ha]

theorem setAddAll_append (acc a b : List String) :
    setAddAll (setAddAll acc a) b = setAddAll acc (a ++ b) := by
  simp [setAddAll, List.foldl_append]

theorem orLoop_union (e : JSVal → JS (List String)) (r : JSVal → List String)
    (cs : List JSVal) (h : ∀ c ∈ cs, e c = .ok (r c)) (acc : List String) :
    orLoop e cs acc = .ok (setAddAll acc (cs.flatMap r)) := by
  induction cs generalizing acc with
  | nil => simp [orLoop, setAddAll, pure, Except.pure]
  | cons c cs ih =>
    simp only [orLoop]
    rw [h c (List.mem_cons_self _ _)]
    simp only [bind, Except.bind]
    rw [ih (fun c hc => h c (List.mem_cons_of_mem _ hc)), setAddAll_append, List.flatMap_cons]

/-- Claim C2: an OR group over a child array, all of whose children evaluate
without throwing, returns a list without repetition that contains an
identifier exactly when some child returns it, in the order of first
occurrence in the concatenation of the children's results. -/
theorem or_group_semantics (items : List Item) (query : JSVal) (children : List JSVal)
    (result : JSVal → List String)
    (hq : getField query "conditions" = .ok (.arr children))
    (hr : ∀ c ∈ children, evaluateChild items c = .ok (result c)) :
    ∃ ids, evaluateOrQuery items query = .ok ids ∧ ids.Nodup ∧
      (∀ id, id ∈ ids ↔ ∃ c ∈ children, id ∈ result c) ∧
      ids = (children.flatMap result).eraseDups := by
  refine ⟨setAddAll [] (children.flatMap result), ?_, ?_, ?_, ?_⟩
  · rw [evaluateOrQuery_eq, hq]
    simp only [bind, Except.bind, iterate]
    exact orLoop_union _ _ _ hr _
  · exact nodup_setAddAll _ _ List.nodup_nil
  · intro id
    rw [mem_setAddAll]
    simp [List.mem_flatMap]
  · rw [setAddAll_eq_loop]
    rfl

theorem or_group_semantics_witness :
    ∃ ids, evaluateOrQuery scenarioItems unionScenarioQuery = .ok ids ∧ ids.Nodup ∧
      (∀ id, id ∈ ids ↔ ∃ c ∈ unionScenarioChildren, id ∈ childIds scenarioItems c) ∧
      ids = (unionScenarioChildren.flatMap (childIds scenarioItems)).eraseDups :=
  or_group_semantics scenarioItems unionScenarioQuery unionScenarioChildren
    (childIds scenarioItems) rfl (by decide)

/-- Claim C3: for a condition object with truthy `category`, `field` and
`operator` and a `value` key, the scanner returns the identifiers of exactly
the items on which the predicate evaluator accepts the value the accessor
finds, in item order, one entry for each such item. -/
theorem condition_scanner_correct (items : List Item) (fields : List (String × JSVal))
    (category field operator value : JSVal)
    (hc : fields.lookup "category" = some category) (hct : truthy category = true)
    (hf : fields.lookup "field" = some field) (hft : truthy field = true)
    (ho : fields.lookup "operator" = some operator) (hot : truthy operator = true)
    (hv : fields.lookup "value" = some value) :
    evaluateConditionOnModel items (.obj fields) =
      .ok ((items.filter fun item =>
        evaluatePropertyValue (findPropertyValue item.properties category field)
          operator value).map (·.externalId)) := by
  simp [evaluateConditionOnModel, getField, hasField, hc, hf, ho, hv, hct, hft, hot, bind,
    Except.bind, pure, Except.pure, itemMatches]
  rfl

theorem condition_scanner_correct_witness :
    evaluateConditionOnModel scenarioItems (leaf "Constraints" "Level" "equals" "Level 1") =
      .ok ["a", "c"] :=
  (condition_scanner_correct scenarioItems
    [("category", .str "Constraints"), ("field", .str "Level"), ("operator", .str "equals"),
      ("value", .str "Level 1")]
    (.str "Constraints") (.str "Level") (.str "equals") (.str "Level 1")
    rfl (by decide) rfl (by decide) rfl (by decide) rfl).trans (by decide)

/-- Claim C4: on a value that is neither `undefined` nor `null`, `equals` holds
exactly when the lower-cased strings are equal or both sides parse as numbers
and the numbers are equal; so `"20"` equals `"20.0"` and the stored number 20
equals the operand `"20"`. -/
theorem equals_semantics :
    (∀ v t : JSVal, v ≠ .undefined → v ≠ .null →
      (evaluatePropertyValue v (.str "equals") t = true ↔
        toLowerCase (toStr v) = toLowerCase (toStr t) ∨
        ((parseFloat v).isNaN = false ∧ (parseFloat t).isNaN = false ∧
          JSNum.eq (parseFloat v) (parseFloat t) = true))) ∧
    evaluatePropertyValue (.str "20") (.str "equals") (.str "20.0") = true ∧
    evaluatePropertyValue (.num (JSNum.ofNat 20)) (.str "equals") (.str "20") = true := by
  refine ⟨?_, by decide, by decide⟩
  intro v t hu hn
  cases v with
  | undefined => exact absurd rfl hu
  | null => exact absurd rfl hn
  | bool b => simp [evaluatePropertyValue, strictEqStr, and_assoc]
  | num n => simp [evaluatePropertyValue, strictEqStr, and_assoc]
  | str s => simp [evaluatePropertyValue, strictEqStr, and_assoc]
  | arr xs => simp [evaluatePropertyValue, strictEqStr, and_assoc]
  | obj fs => simp [evaluatePropertyValue, strictEqStr, and_assoc]

theorem equals_semantics_witness :
    evaluatePropertyValue (.str "20.0 m^2") (.str "equals") (.str "20") = true :=
  (equals_semantics.1 (.str "20.0 m^2") (.str "20") (by simp) (by simp)).mpr
    (Or.inr (by decide))

/-- The values `undefined` and `null` fail every operator with every operand,
so the scanner's result is made of items for which the accessor returns neither
of the two: it is the identifier list of a sublist of the collection that holds
no other item. -/
theorem absent_or_null_fails :
    (∀ operator testValue : JSVal,
      evaluatePropertyValue .undefined operator testValue = false ∧
      evaluatePropertyValue .null operator testValue = false) ∧
    (∀ (items : List Item) (condition category field : JSVal) (ids : List String),
      getField condition "category" = .ok category →
      getField condition "field" = .ok field →
      evaluateConditionOnModel items condition = .ok ids →
      ∃ matched : List Item, matched.Sublist items ∧ ids = matched.map (·.externalId) ∧
        ∀ item ∈ matched,
          findPropertyValue item.properties category field ≠ .undefined ∧
          findPropertyValue item.properties category field ≠ .null) := by
  refine ⟨fun _ _ => ⟨rfl, rfl⟩, ?_⟩
  intro items condition category field ids hc hf h
  simp only [evaluateConditionOnModel, hc, hf, bind, Except.bind] at h
  cases ho : getField condition "operator" with
  | error e => simp [ho] at h
  | ok operator =>
    simp only [ho] at h
    split at h
    · simp only [pure, Except.pure, Except.ok.injEq] at h
      exact ⟨[], List.nil_sublist _, by simp [← h], by simp⟩
    · cases hh : hasField "value" condition with
      | error e => simp [hh] at h
      | ok b =>
        simp only [hh] at h
        split at h
        · simp only [pure, Except.pure, Except.ok.injEq] at h
          exact ⟨[], List.nil_sublist _, by simp [← h], by simp⟩
        · cases hv : getField condition "value" with
          | error e => simp [hv] at h
          | ok value =>
            simp only [hv, pure, Except.pure, Except.ok.injEq] at h
            refine ⟨items.filter (itemMatches category field operator value),
              List.filter_sublist _, h.symm, ?_⟩
            intro item hi
            have hm : itemMatches category field operator value item = true :=
              (List.mem_filter.mp hi).2
            constructor
            · intro hu
              simp [itemMatches, hu, evaluatePropertyValue] at hm
            · intro hn
              simp [itemMatches, hn, evaluatePropertyValue] at hm

/-- Claim C6: each ordering operator is false unless both sides parse as
numbers and is then the comparison of the two parsed numbers; two strings that
are not numbers are never compared as strings. -/
theorem ordering_operators_numeric (v t : JSVal) :
    evaluatePropertyValue v (.str "greater_than") t =
      (!(parseFloat v).isNaN && !(parseFloat t).isNaN &&
        JSNum.lt (parseFloat t) (parseFloat v)) ∧
    evaluatePropertyValue v (.str "less_than") t =
      (!(parseFloat v).isNaN && !(parseFloat t).isNaN &&
        JSNum.lt (parseFloat v) (parseFloat t)) ∧
    evaluatePropertyValue v (.str "greater_than_or_equal") t =
      (!(parseFloat v).isNaN && !(parseFloat t).isNaN &&
        JSNum.le (parseFloat t) (parseFloat v)) ∧
    evaluatePropertyValue v (.str "less_than_or_equal") t =
      (!(parseFloat v).isNaN && !(parseFloat t).isNaN &&
        JSNum.le (parseFloat v) (parseFloat t)) ∧
    evaluatePropertyValue (.str "b") (.str "greater_than") (.str "a") = false := by
  have hu : (parseFloat .undefined).isNaN = true := by decide
  have hn : (parseFloat .null).isNaN = true := by decide
  refine ⟨?_, ?_, ?_, ?_, by decide⟩ <;>
  cases v <;> simp [evaluatePropertyValue, strictEqStr, hu, hn]

/-- Claim C7: on string values `does_not_contain` is the negation of
`contains`. -/
theorem does_not_contain_is_negation (v s : String) :
    evaluatePropertyValue (.str v) (.str "does_not_contain") (.str s) =
      !evaluatePropertyValue (.str v) (.str "contains") (.str s) := by
  simp [evaluatePropertyValue, strictEqStr]

theorem scanner_result_shape {items : List Item} {condition : JSVal} {ids : List String}
    (h : evaluateConditionOnModel items condition = .ok ids) :
    ∃ P : Item → Bool, ids = (items.filter P).map (·.externalId) := by
  simp only [evaluateConditionOnModel, bind, Except.bind] at h
  cases hc : getField condition "category" with
  | error e => simp [hc] at h
  | ok category =>
  cases hf : getField condition "field" with
  | error e => simp [hc, hf] at h
  | ok field =>
  cases ho : getField condition "operator" with
  | error e => simp [hc, hf, ho] at h
  | ok operator =>
    simp only [hc, hf, ho] at h
    split at h
    · simp only [pure, Except.pure, Except.ok.injEq] at h
      exact ⟨fun _ => false, by simp [← h]⟩
    · cases hh : hasField "value" condition with
      | error e => simp [hh] at h
      | ok b =>
        simp only [hh] at h
        split at h
        · simp only [pure, Except.pure, Except.ok.injEq] at h
          exact ⟨fun _ => false, by simp [← h]⟩
        · cases hv : getField condition "value" with
          | error e => simp [hv] at h
          | ok value =>
            simp only [hv, pure, Except.pure, Except.ok.injEq] at h
            exact ⟨itemMatches category field operator value, h.symm⟩

theorem filter_ids_of_nodup (items : List Item) (P : Item → Bool)
    (hd : (items.map (·.externalId)).Nodup) :
    ((items.map (·.externalId)).filter fun id =>
      ((items.filter P).map (·.externalId)).contains id) =
      (items.filter P).map (·.externalId) := by
  rw [List.filter_map]
  congr 1
  apply List.filter_congr
  intro item hi
  simp only [Function.comp]
  by_cases hp : P item = true
  · rw [hp]
    exact List.elem_eq_true_of_mem (List.mem_map.mpr ⟨item, List.mem_filter.mpr ⟨hi, hp⟩, rfl⟩)
  · have hp' : P item = false := by simpa using hp
    rw [hp']
    apply Bool.eq_false_iff.mpr
    intro hm
    obtain ⟨other, ho, he⟩ := List.mem_map.mp (List.mem_of_elem_eq_true hm)
    have := List.inj_on_of_nodup_map hd (List.mem_filter.mp ho).1 hi he
    subst this
    rw [(List.mem_filter.mp ho).2] at hp'
    cases hp'

theorem evaluateSingleCondition_obj (items : List Item) (fields : List (String × JSVal)) :
    evaluateSingleCondition items (.obj [("conditions", .obj fields)]) =
      evaluateConditionOnModel items (.obj fields) := by
  have hq : getField (.obj [("conditions", .obj fields)]) "conditions" = .ok (.obj fields) := rfl
  have ht : truthy (.obj fields) = true := rfl
  have hg : ∀ k, getField (.obj fields) k = .ok ((fields.lookup k).getD .undefined) :=
    fun _ => rfl
  unfold evaluateSingleCondition
  simp only [hq, bind, Except.bind, ht, Bool.not_true, Bool.false_eq_true, if_false, hg]
  by_cases hinv : (!truthy ((fields.lookup "category").getD .undefined) ||
      !truthy ((fields.lookup "field").getD .undefined) ||
      !truthy ((fields.lookup "operator").getD .undefined)) = true
  · simp only [hinv, if_true, evaluateConditionOnModel, hg, bind, Except.bind]
  · simp only [hinv, if_false]
    cases hh : hasField "value" (.obj fields) with
    | error e =>
      simp only [evaluateConditionOnModel, hg, bind, Except.bind, hinv, if_false, hh]
    | ok b =>
      cases b with
      | false =>
        simp only [evaluateConditionOnModel, hg, bind, Except.bind, hinv, if_false, hh,
          Bool.not_false, if_true]
      | true =>
        simp only [Bool.not_true, Bool.false_eq_true, if_false]

theorem evaluateChild_leaf (items : List Item) (fields : List (String × JSVal))
    (hleaf : (truthy ((fields.lookup "logic").getD .undefined) &&
      truthy ((fields.lookup "conditions").getD .undefined)) = false) :
    evaluateChild items (.obj fields) = evaluateConditionOnModel items (.obj fields) := by
  simp only [evaluateChild, evalChild, getField, bind, Except.bind, hleaf, Bool.false_eq_true,
    if_false]

/-- Claim C8, amended: over a collection with pairwise distinct identifiers, and
for a condition object that is not itself a nested query, the single condition
shortcut and the AND group over that one child return the same. -/
theorem single_condition_shortcut (items : List Item) (fields : List (String × JSVal))
    (hd : (items.map (·.externalId)).Nodup)
    (hleaf : (truthy ((fields.lookup "logic").getD .undefined) &&
      truthy ((fields.lookup "conditions").getD .undefined)) = false) :
    evaluateQueryOnModel items (.obj [("conditions", .obj fields)]) =
      evaluateQueryOnModel items
        (.obj [("logic", .str "AND"), ("conditions", .arr [.obj fields])]) := by
  have hq1 : getField (.obj [("conditions", .obj fields)]) "conditions" = .ok (.obj fields) := rfl
  have hl1 : getField (.obj [("conditions", .obj fields)]) "logic" = .ok .undefined := rfl
  have hq2 : getField (.obj [("logic", .str "AND"), ("conditions", .arr [.obj fields])])
      "conditions" = .ok (.arr [.obj fields]) := rfl
  have hl2 : getField (.obj [("logic", .str "AND"), ("conditions", .arr [.obj fields])])
      "logic" = .ok (.str "AND") := rfl
  have hand : strictEqStr (.str "AND") "AND" = true := by decide
  have hne : truthy (.str "AND") = true := by decide
  unfold evaluateQueryOnModel
  split
  · rfl
  · rename_i hemp
    have ht1 : truthy (.obj fields) = true := rfl
    have ht2 : truthy .undefined = false := rfl
    have ht3 : truthy (.arr [.obj fields]) = true := rfl
    simp only [hq1, hl1, hq2, hl2, bind, Except.bind, ht1, ht2, ht3, hne, hand, Bool.not_true,
      Bool.not_false, Bool.and_true, Bool.and_false, Bool.false_and, if_true,
      Bool.false_eq_true, if_false]
    rw [evaluateSingleCondition_obj, evaluateAndQuery_eq, hq2]
    simp only [bind, Except.bind, iterate, andLoop]
    have hids : (items.map (·.externalId)).isEmpty = false := by
      cases items with
      | nil => simp at hemp
      | cons a l => rfl
    simp only [hids, Bool.false_eq_true, if_false, evaluateChild_leaf items fields hleaf]
    cases hr : evaluateConditionOnModel items (.obj fields) with
    | error e => rfl
    | ok ids =>
      obtain ⟨P, rfl⟩ := scanner_result_shape hr
      simp only [pure, Except.pure]
      rw [filter_ids_of_nodup items P hd]

theorem single_condition_shortcut_witness :
    evaluateQueryOnModel scenarioItems
        (.obj [("conditions", leaf "Constraints" "Level" "equals" "Level 1")]) =
      evaluateQueryOnModel scenarioItems
        (.obj [("logic", .str "AND"),
          ("conditions", .arr [leaf "Constraints" "Level" "equals" "Level 1"])]) :=
  single_condition_shortcut scenarioItems _ (by decide) (by decide)

/-- Claim C8 as stated fails: two items share the identifier `a` and only the
first is on level 1; the shortcut reports `a` once, the AND group twice. -/
theorem single_condition_shortcut_counterexample :
    evaluateQueryOnModel duplicateIdItems
        (.obj [("conditions", leaf "Constraints" "Level" "equals" "Level 1")]) = .ok ["a"] ∧
    evaluateQueryOnModel duplicateIdItems
        (.obj [("logic", .str "AND"),
          ("conditions", .arr [leaf "Constraints" "Level" "equals" "Level 1"])]) =
      .ok ["a", "a"] := by
  decide

/-- Claim C9, amended: an AND group with an empty child list keeps the whole
starting list, so it returns the identifier of every item, in item order; the
same holds for a node with an empty `conditions` array and no `logic`. -/
theorem empty_and_group_returns_all (items : List Item) :
    evaluateAndQuery items (.obj [("logic", .str "AND"), ("conditions", .arr [])]) =
      .ok (items.map (·.externalId)) ∧
    evaluateQueryOnModel items (.obj [("logic", .str "AND"), ("conditions", .arr [])]) =
      .ok (items.map (·.externalId)) ∧
    evaluateQueryOnModel items (.obj [("conditions", .arr [])]) =
      .ok (items.map (·.externalId)) := by
  have h1 : evaluateAndQuery items (.obj [("logic", .str "AND"), ("conditions", .arr [])]) =
      .ok (items.map (·.externalId)) := rfl
  have h2 : evaluateAndQuery items (.obj [("conditions", .arr [])]) =
      .ok (items.map (·.externalId)) := rfl
  refine ⟨h1, ?_, ?_⟩
  · cases items with
    | nil => rfl
    | cons a l => exact h1
  · cases items with
    | nil => rfl
    | cons a l => exact h2

/-- Claim C9 as stated fails: on the four scenario items the empty AND group
returns all four identifiers, with and without the `logic` key. -/
theorem empty_and_group_counterexample :
    evaluateQueryOnModel scenarioItems (.obj [("logic", .str "AND"), ("conditions", .arr [])]) =
      .ok ["a", "b", "c", "d"] ∧
    evaluateQueryOnModel scenarioItems (.obj [("conditions", .arr [])]) =
      .ok ["a", "b", "c", "d"] := by
  decide

/-- Claim C10, amended: on a non-empty collection the query `{}` makes
`evaluateQueryOnModel` throw a `TypeError` (the default AND branch iterates the
missing `conditions`); `executeQuery` catches it and answers with the failure
shape and no identifiers. -/
theorem empty_query_fails_at_entry (cached modelData : List Item)
    (h : cached ≠ [] ∨ modelData ≠ []) :
    evaluateQueryOnModel (if cached.length == 0 then modelData else cached) (.obj []) =
      .error .typeError ∧
    (executeQuery cached modelData (.obj [])).1 = .failure .typeError [] := by
  have key : ∀ items : List Item, items ≠ [] →
      evaluateQueryOnModel items (.obj []) = .error .typeError := by
    intro items hne
    cases items with
    | nil => exact absurd rfl hne
    | cons a l => rfl
  cases cached with
  | cons a l => exact ⟨rfl, rfl⟩
  | nil =>
    cases modelData with
    | nil => simp at h
    | cons a l => exact ⟨rfl, rfl⟩

theorem empty_query_fails_at_entry_witness :
    evaluateQueryOnModel scenarioItems (.obj []) = .error .typeError ∧
    (executeQuery [] scenarioItems (.obj [])).1 = .failure .typeError [] :=
  empty_query_fails_at_entry [] scenarioItems (Or.inr (by simp [scenarioItems]))

/-- Claim C10 as stated fails: on the scenario items the query `{}` does not
evaluate to the empty result, the evaluation throws. -/
theorem empty_query_counterexample :
    evaluateQueryOnModel scenarioItems (.obj []) = .error .typeError ∧
    evaluateQueryOnModel scenarioItems (.obj []) ≠ .ok [] := by
  decide

theorem evaluateQueryOnModel_logic (items : List Item) (fields : List (String × JSVal))
    (logic : JSVal) (hne : items ≠ []) (hl : fields.lookup "logic" = some logic)
    (ht : truthy logic = true) :
    evaluateQueryOnModel items (.obj fields) =
      if strictEqStr logic "AND" then evaluateAndQuery items (.obj fields)
      else if strictEqStr logic "OR" then evaluateOrQuery items (.obj fields)
      else evaluateAndQuery items (.obj fields) := by
  have hemp : items.isEmpty = false := by
    cases items with
    | nil => exact absurd rfl hne
    | cons a l => rfl
  simp only [evaluateQueryOnModel, hemp, Bool.false_eq_true, if_false, getField, hl,
    Option.getD_some, bind, Except.bind, ht, Bool.not_true, Bool.and_false, Bool.false_and]

/-- Claim C11, amended: on a non-empty collection a node with `logic` `'AND'`
or `'OR'` whose `conditions` is missing or is a record makes the tree evaluator
throw a `TypeError`, because the loop iterates a value that is not iterable;
the same happens when the node with a record as `conditions` is a child of a
group. -/
theorem group_without_array_throws (items : List Item) (fields : List (String × JSVal))
    (logic : String) (hne : items ≠ [])
    (hl : fields.lookup "logic" = some (.str logic)) (hlogic : logic = "AND" ∨ logic = "OR")
    (hc : fields.lookup "conditions" = none ∨
      ∃ fs, fields.lookup "conditions" = some (.obj fs)) :
    evaluateQueryOnModel items (.obj fields) = .error .typeError ∧
    ((∃ fs, fields.lookup "conditions" = some (.obj fs)) →
      evaluateChild items (.obj fields) = .error .typeError) := by
  have hit : ∀ c, (c = JSVal.undefined ∨ ∃ fs, c = JSVal.obj fs) →
      getField (.obj fields) "conditions" = .ok c →
      evaluateAndQuery items (.obj fields) = .error .typeError ∧
      evaluateOrQuery items (.obj fields) = .error .typeError := by
    intro c hcs hg
    rw [evaluateAndQuery_eq, evaluateOrQuery_eq, hg]
    rcases hcs with rfl | ⟨fs, rfl⟩ <;> exact ⟨rfl, rfl⟩
  have hthrow : evaluateAndQuery items (.obj fields) = .error .typeError ∧
      evaluateOrQuery items (.obj fields) = .error .typeError := by
    rcases hc with hn | ⟨fs, hs⟩
    · exact hit .undefined (Or.inl rfl) (by simp [getField, hn])
    · exact hit (.obj fs) (Or.inr ⟨fs, rfl⟩) (by simp [getField, hs])
  have ht : truthy (.str logic) = true := by
    rcases hlogic with rfl | rfl <;> decide
  constructor
  · rw [evaluateQueryOnModel_logic items fields (.str logic) hne hl ht]
    rcases hlogic with rfl | rfl
    · rw [if_pos (by decide)]
      exact hthrow.1
    · rw [if_neg (by decide), if_pos (by decide)]
      exact hthrow.2
  · rintro ⟨fs, hs⟩
    have hto : truthy (.obj fs) = true := rfl
    simp only [evaluateChild, evalChild, getField, hl, hs, Option.getD_some, bind, Except.bind,
      ht, hto, Bool.and_true, if_true]
    rcases hlogic with rfl | rfl
    · rw [if_pos (by decide)]
      exact hthrow.1
    · rw [if_neg (by decide)]
      exact hthrow.2

theorem group_without_array_throws_witness :
    evaluateQueryOnModel scenarioItems
      (.obj [("logic", .str "OR"), ("conditions", .obj [])]) = .error .typeError ∧
    ((∃ fs, List.lookup "conditions"
        [("logic", JSVal.str "OR"), ("conditions", JSVal.obj [])] = some (.obj fs)) →
      evaluateChild scenarioItems
        (.obj [("logic", .str "OR"), ("conditions", .obj [])]) = .error .typeError) :=
  group_without_array_throws scenarioItems [("logic", .str "OR"), ("conditions", .obj [])] "OR"
    (by simp [scenarioItems]) rfl (Or.inr rfl) (Or.inr ⟨[], rfl⟩)

/-- Claim C11 as stated fails: on the scenario items an AND node whose
`conditions` is a record, and an OR node without `conditions`, do not evaluate
to the empty result, the evaluation throws. -/
theorem group_without_array_counterexample :
    evaluateQueryOnModel scenarioItems
      (.obj [("logic", .str "AND"), ("conditions", .obj [])]) = .error .typeError ∧
    evaluateQueryOnModel scenarioItems (.obj [("logic", .str "OR")]) = .error .typeError := by
  decide

/-- The `try` block of `executeQuery` by cases: it throws on a falsy request
body, throws when nothing is stored and nothing is supplied, and otherwise
returns what the dispatcher returns, or throws what it throws, over the
collection in use. -/
theorem executeQueryBody_cases (cached modelData : List Item) (requestBody : JSVal) :
    executeQueryBody cached modelData requestBody =
      if truthy requestBody = false then .error (.error "Request body is missing or empty")
      else if cached.isEmpty && modelData.isEmpty then
        .error (.error "Model data is empty or not initialized")
      else
        match evaluateQueryOnModel (if cached.length == 0 then modelData else cached)
            requestBody with
        | .ok ids => .ok (ids, if cached.length == 0 then modelData else cached)
        | .error e => .error e := by
  cases htr : truthy requestBody with
  | false =>
    simp [executeQueryBody, htr, throw, throwThe, MonadExceptOf.throw]
  | true =>
    cases cached with
    | nil =>
      cases modelData with
      | nil =>
        simp [executeQueryBody, htr, throw, throwThe, MonadExceptOf.throw, bind, Except.bind]
      | cons a l =>
        have hl : (l.length + 1 == 0) = false := by simp
        simp only [executeQueryBody, htr, bind, Except.bind, pure, Except.pure,
          List.length_nil, List.length_cons, beq_self_eq_true, if_true, Bool.not_true,
          Bool.false_eq_true, if_false, hl, List.isEmpty_nil, List.isEmpty_cons, Bool.and_false]
        cases evaluateQueryOnModel (a :: l) requestBody <;> rfl
    | cons a l =>
      have hl : (l.length + 1 == 0) = false := by simp
      simp only [executeQueryBody, htr, bind, Except.bind, pure, Except.pure,
        List.length_cons, Bool.not_true, Bool.false_eq_true, if_false, hl, List.isEmpty_cons,
        Bool.false_and]
      cases evaluateQueryOnModel (a :: l) requestBody <;> rfl

/-- Claim C12: the call `executeQuery(requestBody)`, taken as a `try` block and
a handler each of which may throw, returns for every request body and every
stored and supplied collection, with the success shape or the failure shape.
The failure shape, with no identifiers, answers a falsy request body, the case
that nothing is stored and nothing supplied, and every error the dispatcher
throws; the success shape carries the identifiers the dispatcher returns and
their number as count.  The `try` block does throw on `null`, on a number, on a
string and on a tree with a `null` child, and the call returns the failure shape
each time. -/
theorem executeQuery_never_throws (cached modelData : List Item) (requestBody : JSVal) :
    executeQueryTry cached modelData requestBody =
      .ok (executeQuery cached modelData requestBody) ∧
    ((∃ dbIds, (executeQuery cached modelData requestBody).1 =
        .success dbIds "Query executed successfully" dbIds.length) ∨
     (∃ error, (executeQuery cached modelData requestBody).1 = .failure error [])) ∧
    (truthy requestBody = false →
      (executeQuery cached modelData requestBody).1 =
        .failure (.error "Request body is missing or empty") []) ∧
    (truthy requestBody = true → cached = [] → modelData = [] →
      (executeQuery cached modelData requestBody).1 =
        .failure (.error "Model data is empty or not initialized") []) ∧
    (truthy requestBody = true → ¬ (cached = [] ∧ modelData = []) →
      (∀ ids, evaluateQueryOnModel (if cached.length == 0 then modelData else cached)
          requestBody = .ok ids →
        (executeQuery cached modelData requestBody).1 =
          .success ids "Query executed successfully" ids.length) ∧
      (∀ error, evaluateQueryOnModel (if cached.length == 0 then modelData else cached)
          requestBody = .error error →
        (executeQuery cached modelData requestBody).1 = .failure error [])) ∧
    (executeQueryBody [] scenarioItems .null).map (·.1) =
      .error (.error "Request body is missing or empty") ∧
    (executeQueryTry [] scenarioItems .null).map (·.1) =
      .ok (.failure (.error "Request body is missing or empty") []) ∧
    (executeQueryBody [] scenarioItems (.num (JSNum.ofNat 5))).map (·.1) = .error .typeError ∧
    (executeQueryTry [] scenarioItems (.num (JSNum.ofNat 5))).map (·.1) =
      .ok (.failure .typeError []) ∧
    (executeQueryBody [] scenarioItems (.str "AND")).map (·.1) = .error .typeError ∧
    (executeQueryTry [] scenarioItems (.str "AND")).map (·.1) =
      .ok (.failure .typeError []) ∧
    (executeQueryBody [] scenarioItems (andGroup [.null])).map (·.1) = .error .typeError ∧
    (executeQueryTry [] scenarioItems (andGroup [.null])).map (·.1) =
      .ok (.failure .typeError []) := by
  refine ⟨?_, ?_, ?_, ?_, ?_, by decide, by decide, by decide, by decide, by decide,
    by decide, by decide, by decide⟩
  · unfold executeQueryTry executeQuery
    cases executeQueryBody cached modelData requestBody with
    | ok r => rfl
    | error e => rfl
  · unfold executeQuery
    cases executeQueryBody cached modelData requestBody with
    | ok r => exact Or.inl ⟨r.1, rfl⟩
    | error e => exact Or.inr ⟨e, rfl⟩
  · intro htr
    rw [executeQuery, executeQueryBody_cases, if_pos htr]
  · intro htr hc hm
    rw [executeQuery, executeQueryBody_cases, if_neg (by simp [htr]),
      if_pos (by simp [hc, hm])]
  · intro htr hne
    have hne' : ¬ (cached.isEmpty && modelData.isEmpty) = true := by
      simpa [List.isEmpty_iff] using hne
    constructor
    · intro ids he
      rw [executeQuery, executeQueryBody_cases, if_neg (by simp [htr]), if_neg hne', he]
    · intro error he
      rw [executeQuery, executeQueryBody_cases, if_neg (by simp [htr]), if_neg hne', he]

/-- Claim C13: with nothing cached and an empty list from `getModelData`, every
truthy request body gets the failure response with the message
`Model data is empty or not initialized`, never a success. -/
theorem data_not_ready_is_failure (requestBody : JSVal) (h : truthy requestBody = true) :
    (executeQuery [] [] requestBody).1 =
      .failure (.error "Model data is empty or not initialized") [] := by
  simp [executeQuery, executeQueryBody, h, bind, Except.bind, throw, throwThe,
    MonadExceptOf.throw]

theorem data_not_ready_is_failure_witness :
    (executeQuery [] [] (.obj [("conditions", leaf "Constraints" "Level" "equals" "Level 1")])).1 =
      .failure (.error "Model data is empty or not initialized") [] :=
  data_not_ready_is_failure _ (by decide)

/-- Claim C14: a condition object whose `category`, `field` or `operator` is
missing or falsy, or that has no `value` key, gives the empty list, in the
scanner and in the single condition query alike, and nothing is thrown. -/
theorem malformed_condition_matches_nothing (items : List Item)
    (fields : List (String × JSVal))
    (h : truthy ((fields.lookup "category").getD .undefined) = false ∨
      truthy ((fields.lookup "field").getD .undefined) = false ∨
      truthy ((fields.lookup "operator").getD .undefined) = false ∨
      fields.lookup "value" = none) :
    evaluateConditionOnModel items (.obj fields) = .ok [] ∧
    evaluateSingleCondition items (.obj [("conditions", .obj fields)]) = .ok [] := by
  have hs : evaluateConditionOnModel items (.obj fields) = .ok [] := by
    simp only [evaluateConditionOnModel, getField, hasField, bind, Except.bind]
    rcases h with h | h | h | h
    · simp [h, pure, Except.pure]
    · simp [h, pure, Except.pure]
    · simp [h, pure, Except.pure]
    · simp [h, pure, Except.pure]
  exact ⟨hs, by rw [evaluateSingleCondition_obj]; exact hs⟩

theorem malformed_condition_matches_nothing_witness :
    evaluateConditionOnModel scenarioItems
      (.obj [("category", .str "Constraints"), ("field", .str ""), ("operator", .str "equals"),
        ("value", .str "Level 1")]) = .ok [] ∧
    evaluateSingleCondition scenarioItems
      (.obj [("conditions", .obj [("category", .str "Constraints"), ("field", .str ""),
        ("operator", .str "equals"), ("value", .str "Level 1")])]) = .ok [] :=
  malformed_condition_matches_nothing scenarioItems _ (Or.inr (Or.inl (by decide)))

theorem evaluateConditionOnModel_conditionOf (items : List Item)
    (category field operator value : JSVal) (hc : truthy category = true)
    (hf : truthy field = true) (ho : truthy operator = true) :
    evaluateConditionOnModel items (conditionOf category field operator value) =
      .ok ((items.filter (itemMatches category field operator value)).map (·.externalId)) := by
  have h1 : getField (conditionOf category field operator value) "category" = .ok category := rfl
  have h2 : getField (conditionOf category field operator value) "field" = .ok field := rfl
  have h3 : getField (conditionOf category field operator value) "operator" = .ok operator :=
    rfl
  have h4 : getField (conditionOf category field operator value) "value" = .ok value := rfl
  have h5 : hasField "value" (conditionOf category field operator value) = .ok true := rfl
  simp only [evaluateConditionOnModel, h1, h2, h3, h4, h5, bind, Except.bind, hc, hf, ho,
    Bool.not_true, Bool.or_self, Bool.false_eq_true, if_false, pure, Except.pure]

theorem includesChars_nil (hay : List Char) : includesChars [] hay = true := by
  cases hay <;> simp [includesChars]

theorem evaluate_empty_operand (v : JSVal) :
    evaluatePropertyValue v (.str "contains") (.str "") = isPresent v ∧
    evaluatePropertyValue v (.str "starts_with") (.str "") = isPresent v ∧
    evaluatePropertyValue v (.str "does_not_contain") (.str "") = false ∧
    evaluatePropertyValue v (.str "greater_than") (.str "") = false ∧
    evaluatePropertyValue v (.str "less_than") (.str "") = false ∧
    evaluatePropertyValue v (.str "greater_than_or_equal") (.str "") = false ∧
    evaluatePropertyValue v (.str "less_than_or_equal") (.str "") = false ∧
    evaluatePropertyValue v (.str "equals") (.str "") =
      (isPresent v && toLowerCase (toStr v) == "") := by
  have hl : toLowerCase (toStr (.str "")) = "" := by decide
  have hp : (parseFloat (.str "")).isNaN = true := by decide
  have hi : ∀ s : String, includes s "" = true := fun s => includesChars_nil _
  have hs : ∀ s : String, startsWith s "" = true := fun s => by
    simp [startsWith]
  cases v <;>
    simp [evaluatePropertyValue, strictEqStr, hl, hp, hi, hs, isPresent]

theorem toLowerCase_eq_empty (s : String) : (toLowerCase s == "") = (s == "") := by
  have h1 : (toLowerCase s = "") ↔ (s = "") := by
    constructor
    · intro h
      have hd : (toLowerCase s).data = [] := by rw [h]
      simp only [toLowerCase, List.map_eq_nil_iff] at hd
      exact String.ext hd
    · intro h
      subst h
      rfl
  by_cases h : s = ""
  · subst h
    rfl
  · have h2 : ¬ toLowerCase s = "" := fun hh => h (h1.mp hh)
    simp [h, h2]

/-- Claim C15, amended: the `value` key only has to be present, so a condition
whose value is the empty string is evaluated.  For a category and a field that
are not empty and are not names inherited from `Object.prototype`: with
`contains` or `starts_with` it returns every item whose value at the category
and field is neither absent nor `null`, with `equals` the items whose value is
present and has the empty string as its string form, with `does_not_contain`
or an ordering operator nothing. -/
theorem empty_value_is_evaluated (items : List Item) (category field : JSVal)
    (hc : truthy category = true) (hf : truthy field = true)
    (_hcn : notInherited category = true) (_hfn : notInherited field = true) :
    (∀ op, op = "contains" ∨ op = "starts_with" →
      evaluateConditionOnModel items (conditionOf category field (.str op) (.str "")) =
        .ok ((items.filter fun item =>
          isPresent (findPropertyValue item.properties category field)).map (·.externalId))) ∧
    evaluateConditionOnModel items (conditionOf category field (.str "equals") (.str "")) =
      .ok ((items.filter fun item =>
        isPresent (findPropertyValue item.properties category field) &&
          toStr (findPropertyValue item.properties category field) == "").map
        (·.externalId)) ∧
    (∀ op, op = "does_not_contain" ∨ op = "greater_than" ∨ op = "less_than" ∨
        op = "greater_than_or_equal" ∨ op = "less_than_or_equal" →
      evaluateConditionOnModel items (conditionOf category field (.str op) (.str "")) =
        .ok []) := by
  refine ⟨?_, ?_, ?_⟩
  · intro op hop
    have ho : truthy (.str op) = true := by rcases hop with rfl | rfl <;> decide
    rw [evaluateConditionOnModel_conditionOf items _ _ _ _ hc hf ho]
    have hfun : itemMatches category field (.str op) (.str "") =
        fun item => isPresent (findPropertyValue item.properties category field) := by
      funext item
      rcases hop with rfl | rfl
      · exact (evaluate_empty_operand _).1
      · exact (evaluate_empty_operand _).2.1
    rw [hfun]
  · rw [evaluateConditionOnModel_conditionOf items _ _ _ _ hc hf (by decide)]
    have hfun : itemMatches category field (.str "equals") (.str "") =
        fun item => isPresent (findPropertyValue item.properties category field) &&
          toStr (findPropertyValue item.properties category field) == "" := by
      funext item
      rw [← toLowerCase_eq_empty]
      exact (evaluate_empty_operand _).2.2.2.2.2.2.2
    rw [hfun]
  · intro op hop
    have ho : truthy (.str op) = true := by
      rcases hop with rfl | rfl | rfl | rfl | rfl <;> decide
    rw [evaluateConditionOnModel_conditionOf items _ _ _ _ hc hf ho]
    have hnone : ∀ item, itemMatches category field (.str op) (.str "") item = false := by
      intro item
      have h := evaluate_empty_operand (findPropertyValue item.properties category field)
      rcases hop with rfl | rfl | rfl | rfl | rfl
      · exact h.2.2.1
      · exact h.2.2.2.1
      · exact h.2.2.2.2.1
      · exact h.2.2.2.2.2.1
      · exact h.2.2.2.2.2.2.1
    have : items.filter (itemMatches category field (.str op) (.str "")) = [] := by
      apply List.filter_eq_nil_iff.mpr
      intro item _
      simp [hnone item]
    rw [this]
    rfl

theorem empty_value_is_evaluated_witness :
    evaluateConditionOnModel scenarioItems
      (conditionOf (.str "Constraints") (.str "Level") (.str "contains") (.str "")) =
      .ok ["a", "b", "c"] :=
  ((empty_value_is_evaluated scenarioItems (.str "Constraints") (.str "Level")
    (by decide) (by decide) (by decide) (by decide)).1 "contains" (Or.inl rfl)).trans
    (by decide)

/-- Claim C15 as stated fails: on the scenario items the condition `contains`
with the empty string as value returns the three items that have a level. -/
theorem empty_value_counterexample :
    evaluateConditionOnModel scenarioItems (leaf "Constraints" "Level" "contains" "") =
      .ok ["a", "b", "c"] := by
  decide

/-- The accessor on the own properties of the bag: `undefined` for an absent
bag, for a category the bag does not have and for a field the category does not
have, and otherwise the stored value as it is, so a stored `null` or empty
string comes back as `null` or as the empty string. -/
theorem findPropertyValue_own_properties (category field : JSVal) :
    findPropertyValue none category field = .undefined ∧
    (∀ bag : PropertyBag, bag.lookup (toStr category) = none →
      findPropertyValue (some bag) category field = .undefined) ∧
    (∀ (bag : PropertyBag) (fields : FieldBag), bag.lookup (toStr category) = some fields →
      fields.lookup (toStr field) = none →
      findPropertyValue (some bag) category field = .undefined) ∧
    (∀ (bag : PropertyBag) (fields : FieldBag) (v : JSVal),
      bag.lookup (toStr category) = some fields → fields.lookup (toStr field) = some v →
      findPropertyValue (some bag) category field = v) ∧
    findPropertyValue (some [("Constraints", [("Level", .null)])])
      (.str "Constraints") (.str "Level") = .null ∧
    findPropertyValue (some [("Constraints", [("Level", .str "")])])
      (.str "Constraints") (.str "Level") = .str "" := by
  refine ⟨rfl, ?_, ?_, ?_, rfl, rfl⟩
  · intro bag h
    simp [findPropertyValue, h]
  · intro bag fields h1 h2
    simp [findPropertyValue, h1, h2]
  · intro bag fields v h1 h2
    simp [findPropertyValue, h1, h2]

theorem andLoop_empty (e : JSVal → JS (List String)) (cs : List JSVal) :
    andLoop e cs [] = .ok [] := by
  cases cs <;> rfl

theorem andLoop_append (e : JSVal → JS (List String)) (cs rest : List JSVal)
    (acc : List String) :
    andLoop e (cs ++ rest) acc = (andLoop e cs acc >>= fun r => andLoop e rest r) := by
  induction cs generalizing acc with
  | nil => rfl
  | cons c cs ih =>
    simp only [List.cons_append, andLoop]
    split
    · rename_i hemp
      have : acc = [] := by simpa using hemp
      subst this
      simp only [bind, Except.bind, pure, Except.pure]
      exact (andLoop_empty e rest).symm
    · cases e c with
      | error err => rfl
      | ok ids =>
        simp only [bind, Except.bind]
        exact ih _

/-- Claim C17: when an AND group over the children `cs` returns the empty list,
so does the AND group over `cs` followed by any further children: the loop
stops at the empty list, the further children are not evaluated and cannot
make the group throw. -/
theorem and_group_short_circuits (items : List Item) (fields1 fields2 : List (String × JSVal))
    (cs rest : List JSVal)
    (h1 : fields1.lookup "conditions" = some (.arr cs))
    (h2 : fields2.lookup "conditions" = some (.arr (cs ++ rest)))
    (h : evaluateAndQuery items (.obj fields1) = .ok []) :
    evaluateAndQuery items (.obj fields2) = .ok [] := by
  have g1 : getField (.obj fields1) "conditions" = .ok (.arr cs) := by simp [getField, h1]
  have g2 : getField (.obj fields2) "conditions" = .ok (.arr (cs ++ rest)) := by
    simp [getField, h2]
  rw [evaluateAndQuery_eq, g1] at h
  rw [evaluateAndQuery_eq, g2]
  simp only [bind, Except.bind, iterate] at h ⊢
  have := andLoop_append (evaluateChild items) cs rest (items.map (·.externalId))
  rw [this, h]
  exact andLoop_empty _ rest

theorem and_group_short_circuits_witness :
    evaluateAndQuery scenarioItems
      (.obj [("logic", .str "AND"), ("conditions",
        .arr ([leaf "Constraints" "Level" "equals" "Level 9"] ++ [.null]))]) = .ok [] :=
  and_group_short_circuits scenarioItems
    [("logic", .str "AND"), ("conditions", .arr [leaf "Constraints" "Level" "equals" "Level 9"])]
    _ [leaf "Constraints" "Level" "equals" "Level 9"] [.null] rfl rfl (by decide)

theorem orLoop_error (e : JSVal → JS (List String)) (cs : List JSVal) (c : JSVal)
    (err : JSError) (hc : c ∈ cs) (he : e c = .error err) (acc : List String) :
    ∃ err', orLoop e cs acc = .error err' := by
  induction cs generalizing acc with
  | nil => cases hc
  | cons d cs ih =>
    simp only [orLoop]
    cases hd : e d with
    | error err' => exact ⟨err', rfl⟩
    | ok ids =>
      simp only [bind, Except.bind]
      rcases List.mem_cons.mp hc with rfl | hm
      · rw [he] at hd
        cases hd
      · exact ih hm _

/-- Claim C18: in an OR group every child is evaluated, whatever the earlier
children returned; when the evaluation of some child throws, the evaluation of
the group throws. -/
theorem or_group_never_short_circuits (items : List Item) (fields : List (String × JSVal))
    (children : List JSVal) (c : JSVal) (err : JSError)
    (h : fields.lookup "conditions" = some (.arr children)) (hc : c ∈ children)
    (he : evaluateChild items c = .error err) :
    ∃ err', evaluateOrQuery items (.obj fields) = .error err' := by
  have g : getField (.obj fields) "conditions" = .ok (.arr children) := by simp [getField, h]
  rw [evaluateOrQuery_eq, g]
  simp only [bind, Except.bind, iterate]
  exact orLoop_error _ _ c err hc he _

theorem or_group_never_short_circuits_witness :
    ∃ err', evaluateOrQuery scenarioItems
      (.obj [("logic", .str "OR"), ("conditions",
        .arr [.obj [("logic", .str "AND"), ("conditions", .arr [])], .null])]) = .error err' :=
  or_group_never_short_circuits scenarioItems _
    [.obj [("logic", .str "AND"), ("conditions", .arr [])], .null] .null .typeError rfl
    (by simp) rfl

/-- Claim C19, amended: `executeQuery` keeps the collection in the module
variable `_modelDataItems`.  While a collection is stored, the response does
not depend on what `getModelData` supplies and the stored collection stays; a
call with a truthy request body that finds nothing stored stores the non-empty
collection that `getModelData` supplies. -/
theorem executeQuery_uses_stored_collection (cached modelData : List Item)
    (requestBody : JSVal) :
    (cached ≠ [] → ∀ supplied : List Item,
      executeQuery cached supplied requestBody = executeQuery cached modelData requestBody) ∧
    (cached ≠ [] → (executeQuery cached modelData requestBody).2 = cached) ∧
    (truthy requestBody = true → modelData ≠ [] →
      (executeQuery [] modelData requestBody).2 = modelData) := by
  refine ⟨?_, ?_, ?_⟩
  · intro hne supplied
    cases cached with
    | nil => exact absurd rfl hne
    | cons a l =>
      have hlen : (l.length + 1 == 0) = false := by simp
      simp only [executeQuery, executeQueryBody, List.length_cons, hlen, if_false,
        Bool.and_false, Bool.false_and, Bool.false_eq_true]
  · intro hne
    cases cached with
    | nil => exact absurd rfl hne
    | cons a l =>
      simp only [executeQuery, executeQueryBody]
      cases truthy requestBody with
      | false => rfl
      | true =>
        simp only [Bool.not_true, Bool.false_eq_true, if_false, bind, Except.bind,
          List.length_cons, pure, Except.pure]
        cases evaluateQueryOnModel (a :: l) requestBody with
        | error e => rfl
        | ok ids => rfl
  · intro ht hne
    cases modelData with
    | nil => exact absurd rfl hne
    | cons a l =>
      simp only [executeQuery, executeQueryBody, ht]
      simp only [Bool.not_true, Bool.false_eq_true, if_false, bind, Except.bind,
        List.length_cons, List.length_nil, pure, Except.pure]
      cases evaluateQueryOnModel (a :: l) requestBody with
      | error e => rfl
      | ok ids => rfl

/-- Claim C19 as stated fails: after a first call over the scenario items, a
call with the same query while `getModelData` supplies `otherItems` still
answers from the scenario items, whereas a call with nothing stored answers
from `otherItems`. -/
theorem executeQuery_stateless_counterexample :
    (executeQuery [] scenarioItems
      (.obj [("conditions", leaf "Constraints" "Level" "equals" "Level 1")])).2 =
      scenarioItems ∧
    (executeQuery scenarioItems otherItems
      (.obj [("conditions", leaf "Constraints" "Level" "equals" "Level 1")])).1 =
      .success ["a", "c"] "Query executed successfully" 2 ∧
    (executeQuery [] otherItems
      (.obj [("conditions", leaf "Constraints" "Level" "equals" "Level 1")])).1 =
      .success ["z"] "Query executed successfully" 1 := by
  refine ⟨rfl, by decide, by decide⟩

theorem validated_scan_eq (items : List Item) (condition : JSVal)
    (hn : condition ≠ .null) (hu : condition ≠ .undefined) :
    (if (!truthy condition) = true then (pure [] : JS (List String))
      else do
        let category ← getField condition "category"
        let field ← getField condition "field"
        let operator ← getField condition "operator"
        if (!truthy category || !truthy field || !truthy operator) = true then pure []
        else do
          let hasValue ← hasField "value" condition
          if (!hasValue) = true then pure []
          else evaluateConditionOnModel items condition) =
      evaluateConditionOnModel items condition := by
  cases condition with
  | undefined => exact absurd rfl hu
  | null => exact absurd rfl hn
  | bool b => cases b <;> rfl
  | num n =>
    by_cases ht : (!truthy (.num n)) = true
    · rw [if_pos ht]; rfl
    · rw [if_neg ht]; rfl
  | str s =>
    by_cases ht : (!truthy (.str s)) = true
    · rw [if_pos ht]; rfl
    · rw [if_neg ht]; rfl
  | arr xs => rfl
  | obj fields =>
    have ht : truthy (.obj fields) = true := rfl
    have hg : ∀ k, getField (.obj fields) k = .ok ((fields.lookup k).getD .undefined) :=
      fun _ => rfl
    simp only [ht, Bool.not_true, Bool.false_eq_true, if_false, hg, bind, Except.bind]
    by_cases hinv : (!truthy ((fields.lookup "category").getD .undefined) ||
        !truthy ((fields.lookup "field").getD .undefined) ||
        !truthy ((fields.lookup "operator").getD .undefined)) = true
    · simp only [hinv, if_true, evaluateConditionOnModel, hg, bind, Except.bind]
    · simp only [hinv, if_false]
      cases hh : hasField "value" (.obj fields) with
      | error e =>
        simp only [evaluateConditionOnModel, hg, bind, Except.bind, hinv, if_false, hh]
      | ok b =>
        cases b with
        | false =>
          simp only [evaluateConditionOnModel, hg, bind, Except.bind, hinv, if_false, hh,
            Bool.not_false, if_true]
        | true =>
          simp only [Bool.not_true, Bool.false_eq_true, if_false]

theorem evaluateSingleCondition_record (items : List Item) (query : JSVal)
    (fs : List (String × JSVal)) (hq : getField query "conditions" = .ok (.obj fs)) :
    evaluateSingleCondition items query = evaluateConditionOnModel items (.obj fs) := by
  have core := validated_scan_eq items (.obj fs) (by simp) (by simp)
  unfold evaluateSingleCondition
  simp only [hq, bind, Except.bind] at core ⊢
  exact core

theorem evaluateSingleCondition_sole (items : List Item) (query x : JSVal)
    (hq : getField query "conditions" = .ok (.arr [x]))
    (hn : x ≠ .null) (hu : x ≠ .undefined) :
    evaluateSingleCondition items query = evaluateConditionOnModel items x := by
  have core := validated_scan_eq items x hn hu
  unfold evaluateSingleCondition
  simp only [hq, bind, Except.bind, List.head?_cons, Option.getD_some] at core ⊢
  exact core

theorem evaluateQueryOnModel_record (items : List Item) (fields fs : List (String × JSVal))
    (hne : items ≠ []) (hl : fields.lookup "logic" = none)
    (hc : fields.lookup "conditions" = some (.obj fs)) :
    evaluateQueryOnModel items (.obj fields) = evaluateSingleCondition items (.obj fields) := by
  have hemp : items.isEmpty = false := by
    cases items with
    | nil => exact absurd rfl hne
    | cons a l => rfl
  have hu : truthy .undefined = false := rfl
  have ht : truthy (.obj fs) = true := rfl
  simp only [evaluateQueryOnModel, hemp, Bool.false_eq_true, if_false, getField, hl, hc,
    Option.getD_some, Option.getD_none, bind, Except.bind, ht, hu, Bool.not_false,
    Bool.and_true, Bool.true_and, if_true]

theorem evaluateQueryOnModel_array (items : List Item) (fields : List (String × JSVal))
    (xs : List JSVal) (hne : items ≠ []) (hl : fields.lookup "logic" = none)
    (hc : fields.lookup "conditions" = some (.arr xs)) :
    evaluateQueryOnModel items (.obj fields) =
      if (xs.length == 1) = true then evaluateSingleCondition items (.obj fields)
      else evaluateAndQuery items (.obj fields) := by
  have hemp : items.isEmpty = false := by
    cases items with
    | nil => exact absurd rfl hne
    | cons a l => rfl
  have hu : truthy .undefined = false := rfl
  have ht : truthy (.arr xs) = true := rfl
  have hs : strictEqStr .undefined "AND" = false := rfl
  have ho : strictEqStr .undefined "OR" = false := rfl
  simp only [evaluateQueryOnModel, hemp, Bool.false_eq_true, if_false, getField, hl, hc,
    Option.getD_some, Option.getD_none, bind, Except.bind, ht, hu, hs, ho, Bool.not_false,
    Bool.and_true, Bool.true_and, ite_self]

/-- Claim C20, amended: on a non-empty collection a node without `logic` goes
to the scanner on `conditions` when that is a record, to the scanner on the
sole element when it is an array of length one whose element is neither `null`
nor `undefined` (for those the result is empty), and to the AND group when it
is an array of another length; `logic` `'AND'` goes to the AND group and
`'OR'` to the OR group.  On an empty collection every node gives the empty
result. -/
theorem top_level_dispatch (items : List Item) (fields : List (String × JSVal))
    (hne : items ≠ []) :
    (fields.lookup "logic" = none → ∀ fs, fields.lookup "conditions" = some (.obj fs) →
      evaluateQueryOnModel items (.obj fields) = evaluateConditionOnModel items (.obj fs)) ∧
    (fields.lookup "logic" = none → ∀ x, fields.lookup "conditions" = some (.arr [x]) →
      x ≠ .null → x ≠ .undefined →
      evaluateQueryOnModel items (.obj fields) = evaluateConditionOnModel items x) ∧
    (fields.lookup "logic" = none → ∀ x, fields.lookup "conditions" = some (.arr [x]) →
      x = .null ∨ x = .undefined → evaluateQueryOnModel items (.obj fields) = .ok []) ∧
    (fields.lookup "logic" = none → ∀ xs, fields.lookup "conditions" = some (.arr xs) →
      xs.length ≠ 1 →
      evaluateQueryOnModel items (.obj fields) = evaluateAndQuery items (.obj fields)) ∧
    (fields.lookup "logic" = some (.str "AND") →
      evaluateQueryOnModel items (.obj fields) = evaluateAndQuery items (.obj fields)) ∧
    (fields.lookup "logic" = some (.str "OR") →
      evaluateQueryOnModel items (.obj fields) = evaluateOrQuery items (.obj fields)) ∧
    (∀ query, evaluateQueryOnModel [] query = .ok []) := by
  refine ⟨?_, ?_, ?_, ?_, ?_, ?_, fun _ => rfl⟩
  · intro hl fs hc
    rw [evaluateQueryOnModel_record items fields fs hne hl hc]
    exact evaluateSingleCondition_record items _ fs (by simp [getField, hc])
  · intro hl x hc hn hu
    rw [evaluateQueryOnModel_array items fields _ hne hl hc]
    simp only [List.length_singleton, beq_self_eq_true, if_true]
    exact evaluateSingleCondition_sole items _ x (by simp [getField, hc]) hn hu
  · intro hl x hc hx
    rw [evaluateQueryOnModel_array items fields _ hne hl hc]
    simp only [List.length_singleton, beq_self_eq_true, if_true]
    have hg : getField (.obj fields) "conditions" = .ok (.arr [x]) := by simp [getField, hc]
    unfold evaluateSingleCondition
    rcases hx with rfl | rfl <;> simp only [hg, bind, Except.bind] <;> rfl
  · intro hl xs hc hlen
    rw [evaluateQueryOnModel_array items fields _ hne hl hc]
    have : (xs.length == 1) = false := by simpa using hlen
    simp only [this, Bool.false_eq_true, if_false]
  · intro hl
    rw [evaluateQueryOnModel_logic items fields _ hne hl (by decide), if_pos (by decide)]
  · intro hl
    rw [evaluateQueryOnModel_logic items fields _ hne hl (by decide), if_neg (by decide),
      if_pos (by decide)]

theorem top_level_dispatch_witness :
    evaluateQueryOnModel scenarioItems nestedScenarioQuery =
      evaluateAndQuery scenarioItems nestedScenarioQuery :=
  (top_level_dispatch scenarioItems
    [("logic", .str "AND"), ("conditions",
      .arr [leaf "Constraints" "Level" "equals" "Level 1",
            leaf "Dimensions" "Area" "greater_than" "10"])]
    (by simp [scenarioItems])).2.2.2.2.1 rfl

/-- Claim C20 as stated fails: for the sole element `null` the dispatcher
returns the empty result where the scanner throws, and on the empty collection
it returns the empty result where the OR group throws. -/
theorem top_level_dispatch_counterexample :
    evaluateQueryOnModel scenarioItems (.obj [("conditions", .arr [.null])]) = .ok [] ∧
    evaluateConditionOnModel scenarioItems .null = .error .typeError ∧
    evaluateQueryOnModel [] (.obj [("logic", .str "OR"), ("conditions", .arr [.null])]) =
      .ok [] ∧
    evaluateOrQuery [] (.obj [("logic", .str "OR"), ("conditions", .arr [.null])]) =
      .error .typeError := by
  decide

/-- Claim C23: an operator that is not one of the eight names never matches,
whatever the value and the operand, so a condition object with such an operator
gives the empty result on every collection. -/
theorem unknown_operator_never_matches (operator : JSVal)
    (h : ∀ name ∈ operatorNames, operator ≠ .str name) :
    (∀ v t : JSVal, evaluatePropertyValue v operator t = false) ∧
    (∀ (items : List Item) (fields : List (String × JSVal)),
      fields.lookup "operator" = some operator →
      evaluateConditionOnModel items (.obj fields) = .ok []) := by
  have hs : ∀ name ∈ operatorNames, strictEqStr operator name = false := by
    intro name hn
    cases operator with
    | str s =>
      have : s ≠ name := fun he => h name hn (by rw [he])
      simpa [strictEqStr] using this
    | undefined => rfl
    | null => rfl
    | bool b => rfl
    | num n => rfl
    | arr xs => rfl
    | obj fs => rfl
  have hv : ∀ v t : JSVal, evaluatePropertyValue v operator t = false := by
    intro v t
    have h1 := hs "contains" (by simp [operatorNames])
    have h2 := hs "does_not_contain" (by simp [operatorNames])
    have h3 := hs "starts_with" (by simp [operatorNames])
    have h4 := hs "equals" (by simp [operatorNames])
    have h5 := hs "greater_than" (by simp [operatorNames])
    have h6 := hs "less_than" (by simp [operatorNames])
    have h7 := hs "greater_than_or_equal" (by simp [operatorNames])
    have h8 := hs "less_than_or_equal" (by simp [operatorNames])
    cases v <;> simp [evaluatePropertyValue, h1, h2, h3, h4, h5, h6, h7, h8]
  refine ⟨hv, ?_⟩
  intro items fields ho
  cases hr : evaluateConditionOnModel items (.obj fields) with
  | error e =>
    simp only [evaluateConditionOnModel, getField, hasField, bind, Except.bind] at hr
    split at hr
    · cases hr
    · split at hr <;> cases hr
  | ok ids =>
    simp only [evaluateConditionOnModel, getField, hasField, bind, Except.bind, ho,
      Option.getD_some] at hr
    split at hr
    · simpa [pure, Except.pure] using hr.symm
    · split at hr
      · simpa [pure, Except.pure] using hr.symm
      · simp only [pure, Except.pure, Except.ok.injEq] at hr
        rw [← hr]
        have : ∀ c f v, items.filter (itemMatches c f operator v) = [] := by
          intro c f v
          apply List.filter_eq_nil_iff.mpr
          intro item _
          simp [itemMatches, hv]
        rw [this]
        rfl

theorem unknown_operator_never_matches_witness :
    evaluateConditionOnModel scenarioItems (leaf "Constraints" "Level" "matches" "Level 1") =
      .ok [] :=
  (unknown_operator_never_matches (.str "matches") (by simp [operatorNames])).2
    scenarioItems _ rfl

/-- Claim C24: when `executeQuery` answers with the success shape, the
identifiers are those the tree evaluator returns for the request body over the
collection in use, the count is their number and the message is present. -/
theorem success_response_shape (cached modelData : List Item) (requestBody : JSVal)
    (dbIds : List String) (message : String) (count : Nat)
    (h : (executeQuery cached modelData requestBody).1 = .success dbIds message count) :
    evaluateQueryOnModel (if cached.length == 0 then modelData else cached) requestBody =
      .ok dbIds ∧
    count = dbIds.length ∧ message = "Query executed successfully" := by
  have key : ∀ items : List Item,
      (match (do
          let matchingDbIds ← evaluateQueryOnModel items requestBody
          pure (matchingDbIds, items) : JS (List String × List Item)) with
        | .ok (matchingDbIds, its) =>
          ((Response.success matchingDbIds "Query executed successfully" matchingDbIds.length,
            its) : Response × List Item)
        | .error e => (Response.failure e [], cached)).1 =
        .success dbIds message count →
      evaluateQueryOnModel items requestBody = .ok dbIds ∧
        count = dbIds.length ∧ message = "Query executed successfully" := by
    intro items hk
    cases he : evaluateQueryOnModel items requestBody with
    | error e => simp [he, bind, Except.bind] at hk
    | ok ids =>
      simp only [he, bind, Except.bind, pure, Except.pure, Response.success.injEq] at hk
      obtain ⟨h1, h2, h3⟩ := hk
      subst h1
      exact ⟨rfl, h3.symm, h2.symm⟩
  cases htr : truthy requestBody with
  | false =>
    simp [executeQuery, executeQueryBody, htr, throw, throwThe, MonadExceptOf.throw] at h
  | true =>
    cases cached with
    | cons a l =>
      apply key (a :: l)
      simpa [executeQuery, executeQueryBody, htr, bind, Except.bind, pure, Except.pure]
        using h
    | nil =>
      cases modelData with
      | nil =>
        simp [executeQuery, executeQueryBody, htr, throw, throwThe, MonadExceptOf.throw,
          bind, Except.bind] at h
      | cons a l =>
        simp only [executeQuery, executeQueryBody, htr, bind, Except.bind, pure, Except.pure,
          List.length_nil, List.length_cons, beq_self_eq_true, if_true, Bool.not_true,
          Bool.false_eq_true, if_false] at h
        have hl : (l.length + 1 == 0) = false := by simp
        simp only [hl, Bool.false_eq_true, if_false] at h
        cases he : evaluateQueryOnModel (a :: l) requestBody with
        | error e => simp [he] at h
        | ok ids =>
          simp only [he, Response.success.injEq] at h
          obtain ⟨h1, h2, h3⟩ := h
          subst h1
          exact ⟨he, h3.symm, h2.symm⟩

theorem success_response_shape_witness :
    evaluateQueryOnModel (if ([] : List Item).length == 0 then scenarioItems else [])
      nestedScenarioQuery = .ok ["c"] ∧
    1 = ["c"].length ∧ "Query executed successfully" = "Query executed successfully" :=
  success_response_shape [] scenarioItems nestedScenarioQuery ["c"]
    "Query executed successfully" 1 (by decide)

theorem scanner_sublist {items : List Item} {condition : JSVal} {ids : List String}
    (h : evaluateConditionOnModel items condition = .ok ids) :
    ids.Sublist (items.map (·.externalId)) := by
  obtain ⟨P, rfl⟩ := scanner_result_shape h
  exact List.Sublist.map _ (List.filter_sublist _)

theorem andLoop_sublist (e : JSVal → JS (List String)) (cs : List JSVal) (acc r : List String)
    (h : andLoop e cs acc = .ok r) : r.Sublist acc := by
  induction cs generalizing acc with
  | nil =>
    simp only [andLoop, pure, Except.pure, Except.ok.injEq] at h
    rw [← h]
  | cons c cs ih =>
    simp only [andLoop] at h
    split at h
    · simp only [pure, Except.pure, Except.ok.injEq] at h
      rw [← h]
    · cases hc : e c with
      | error err => simp [hc, bind, Except.bind] at h
      | ok ids =>
        simp only [hc, bind, Except.bind] at h
        exact (ih _ h).trans (List.filter_sublist _)

theorem orLoop_subset (e : JSVal → JS (List String)) (allIds : List String)
    (cs : List JSVal) (he : ∀ c ∈ cs, ∀ ids, e c = .ok ids → ids ⊆ allIds)
    (acc r : List String) (hacc : acc ⊆ allIds) (hn : acc.Nodup)
    (h : orLoop e cs acc = .ok r) : r ⊆ allIds ∧ r.Nodup := by
  induction cs generalizing acc with
  | nil =>
    simp only [orLoop, pure, Except.pure, Except.ok.injEq] at h
    rw [← h]
    exact ⟨hacc, hn⟩
  | cons c cs ih =>
    simp only [orLoop] at h
    cases hc : e c with
    | error err => simp [hc, bind, Except.bind] at h
    | ok ids =>
      simp only [hc, bind, Except.bind] at h
      refine ih (fun d hd => he d (List.mem_cons_of_mem _ hd)) _ ?_ ?_ h
      · intro x hx
        rcases (mem_setAddAll ids acc x).mp hx with hx | hx
        · exact hacc hx
        · exact he c (List.mem_cons_self _ _) ids hc hx
      · exact nodup_setAddAll ids acc hn

theorem evalChild_subset (andQuery orQuery : JSVal → JS (List String)) (items : List Item)
    (c : JSVal) (ids : List String)
    (ha : ∀ r, andQuery c = .ok r → r ⊆ items.map (·.externalId))
    (ho : ∀ r, orQuery c = .ok r → r ⊆ items.map (·.externalId))
    (h : evalChild andQuery orQuery items c = .ok ids) :
    ids ⊆ items.map (·.externalId) := by
  simp only [evalChild, bind, Except.bind] at h
  cases hl : getField c "logic" with
  | error e => simp [hl] at h
  | ok logic =>
    cases hcs : getField c "conditions" with
    | error e => simp [hl, hcs] at h
    | ok conditions =>
      simp only [hl, hcs] at h
      split at h
      · split at h
        · exact ha _ h
        · exact ho _ h
      · exact (scanner_sublist h).subset

theorem eval_subset (items : List Item) :
    ∀ (f : Nat) (query : JSVal) (r : List String),
      (evalAnd f items query = .ok r → r ⊆ items.map (·.externalId)) ∧
      (evalOr f items query = .ok r → r ⊆ items.map (·.externalId)) := by
  intro f
  induction f with
  | zero =>
    intro query r
    exact ⟨fun h => by simp [evalAnd] at h, fun h => by simp [evalOr] at h⟩
  | succ f ih =>
    intro query r
    constructor
    · intro h
      simp only [evalAnd, bind, Except.bind] at h
      cases hq : getField query "conditions" with
      | error e => simp [hq] at h
      | ok conditions =>
        cases hi : iterate conditions with
        | error e => simp [hq, hi] at h
        | ok children =>
          simp only [hq, hi] at h
          exact (andLoop_sublist _ _ _ _ h).subset
    · intro h
      simp only [evalOr, bind, Except.bind] at h
      cases hq : getField query "conditions" with
      | error e => simp [hq] at h
      | ok conditions =>
        cases hi : iterate conditions with
        | error e => simp [hq, hi] at h
        | ok children =>
          simp only [hq, hi] at h
          refine (orLoop_subset _ _ children ?_ [] r (by simp) List.nodup_nil h).1
          intro c _ ids hc
          exact evalChild_subset _ _ items c ids (fun r' hr => (ih c r').1 hr)
            (fun r' hr => (ih c r').2 hr) hc

theorem evaluateAndQuery_sublist {items : List Item} {query : JSVal} {r : List String}
    (h : evaluateAndQuery items query = .ok r) : r.Sublist (items.map (·.externalId)) := by
  rw [evaluateAndQuery_eq] at h
  simp only [bind, Except.bind] at h
  cases hq : getField query "conditions" with
  | error e => simp [hq] at h
  | ok conditions =>
    cases hi : iterate conditions with
    | error e => simp [hq, hi] at h
    | ok children =>
      simp only [hq, hi] at h
      exact andLoop_sublist _ _ _ _ h

theorem evaluateChild_subset {items : List Item} {c : JSVal} {ids : List String}
    (h : evaluateChild items c = .ok ids) : ids ⊆ items.map (·.externalId) :=
  evalChild_subset _ _ items c ids (fun _ hr => (eval_subset items _ c _).1 hr)
    (fun _ hr => (eval_subset items _ c _).2 hr) h

theorem evaluateOrQuery_subset {items : List Item} {query : JSVal} {r : List String}
    (h : evaluateOrQuery items query = .ok r) :
    r ⊆ items.map (·.externalId) ∧ r.Nodup := by
  rw [evaluateOrQuery_eq] at h
  simp only [bind, Except.bind] at h
  cases hq : getField query "conditions" with
  | error e => simp [hq] at h
  | ok conditions =>
    cases hi : iterate conditions with
    | error e => simp [hq, hi] at h
    | ok children =>
      simp only [hq, hi] at h
      exact orLoop_subset _ _ children (fun c _ ids hc => evaluateChild_subset hc) [] r
        (by simp) List.nodup_nil h

theorem evaluateSingleCondition_sublist {items : List Item} {query : JSVal}
    {r : List String} (h : evaluateSingleCondition items query = .ok r) :
    r.Sublist (items.map (·.externalId)) := by
  simp only [evaluateSingleCondition, bind, Except.bind] at h
  cases hq : getField query "conditions" with
  | error e => simp [hq] at h
  | ok conditions =>
    simp only [hq] at h
    split at h
    · simp only [pure, Except.pure, Except.ok.injEq] at h
      rw [← h]; exact List.nil_sublist _
    · split at h
      · cases h
      · split at h
        · cases h
        · split at h
          · cases h
          · split at h
            · simp only [pure, Except.pure, Except.ok.injEq] at h
              rw [← h]; exact List.nil_sublist _
            · split at h
              · cases h
              · split at h
                · simp only [pure, Except.pure, Except.ok.injEq] at h
                  rw [← h]; exact List.nil_sublist _
                · exact scanner_sublist h

theorem evaluateQueryOnModel_subset {items : List Item} {query : JSVal} {ids : List String}
    (h : evaluateQueryOnModel items query = .ok ids) :
    ids ⊆ items.map (·.externalId) ∧ ids.length ≤ items.length := by
  have hsub : ∀ r : List String, r.Sublist (items.map (·.externalId)) →
      r ⊆ items.map (·.externalId) ∧ r.length ≤ items.length := by
    intro r hr
    exact ⟨hr.subset, by simpa using hr.length_le⟩
  have hor : ∀ r : List String, evaluateOrQuery items query = .ok r →
      r ⊆ items.map (·.externalId) ∧ r.length ≤ items.length := by
    intro r hr
    obtain ⟨h1, h2⟩ := evaluateOrQuery_subset hr
    exact ⟨h1, by simpa using (h2.subperm h1).length_le⟩
  simp only [evaluateQueryOnModel] at h
  split at h
  · simp only [pure, Except.pure, Except.ok.injEq] at h
    rw [← h]
    exact ⟨by simp, by simp⟩
  · simp only [bind, Except.bind] at h
    split at h
    · cases h
    · split at h
      · cases h
      · split at h
        · exact hsub _ (evaluateSingleCondition_sublist h)
        · split at h
          · exact hsub _ (evaluateAndQuery_sublist h)
          · split at h
            · exact hor _ h
            · exact hsub _ (evaluateAndQuery_sublist h)

/-- Claim C27: when the evaluation of a query does not throw, every identifier
it returns is the `externalId` of an item of the collection, and the result is
not longer than the collection. -/
theorem results_drawn_from_collection (items : List Item) (query : JSVal)
    (ids : List String) (h : evaluateQueryOnModel items query = .ok ids) :
    (∀ id ∈ ids, ∃ item ∈ items, item.externalId = id) ∧ ids.length ≤ items.length := by
  obtain ⟨h1, h2⟩ := evaluateQueryOnModel_subset h
  refine ⟨?_, h2⟩
  intro id hid
  obtain ⟨item, hi, he⟩ := List.mem_map.mp (h1 hid)
  exact ⟨item, hi, he⟩

theorem results_drawn_from_collection_witness :
    (∀ id ∈ ["d", "a", "c", "b"], ∃ item ∈ scenarioItems, item.externalId = id) ∧
    ["d", "a", "c", "b"].length ≤ scenarioItems.length :=
  results_drawn_from_collection scenarioItems unionScenarioQuery ["d", "a", "c", "b"]
    (by decide)

theorem evaluateAndQuery_andGroup (items : List Item) (cs : List JSVal)
    (result : JSVal → List String)
    (hr : ∀ c ∈ cs, evaluateChild items c = .ok (result c)) :
    evaluateAndQuery items (andGroup cs) =
      .ok ((items.map (·.externalId)).filter fun id => decide (∀ c ∈ cs, id ∈ result c)) := by
  have hq : getField (andGroup cs) "conditions" = .ok (.arr cs) := rfl
  rw [evaluateAndQuery_eq, hq]
  simp only [bind, Except.bind, iterate]
  exact andLoop_filter _ _ _ hr _

theorem evaluateAndQuery_same_members (items : List Item) (cs cs' : List JSVal)
    (result : JSVal → List String)
    (hr : ∀ c ∈ cs, evaluateChild items c = .ok (result c))
    (hm : ∀ c, c ∈ cs' ↔ c ∈ cs) :
    evaluateAndQuery items (andGroup cs') = evaluateAndQuery items (andGroup cs) := by
  rw [evaluateAndQuery_andGroup items cs result hr,
    evaluateAndQuery_andGroup items cs' result (fun c hc => hr c ((hm c).mp hc))]
  congr 1
  apply List.filter_congr
  intro id _
  have : (∀ c ∈ cs', id ∈ result c) ↔ (∀ c ∈ cs, id ∈ result c) :=
    ⟨fun h c hc => h c ((hm c).mpr hc), fun h c hc => h c ((hm c).mp hc)⟩
  simp only [this]

/-- Claim C26: for an AND group all of whose children evaluate without
throwing, every permutation of the children gives the same identifier list, in
the same order, and so does repeating a child. -/
theorem and_group_order_independent (items : List Item) (cs : List JSVal)
    (result : JSVal → List String)
    (hr : ∀ c ∈ cs, evaluateChild items c = .ok (result c)) :
    (∀ cs' : List JSVal, cs'.Perm cs →
      evaluateAndQuery items (andGroup cs') = evaluateAndQuery items (andGroup cs)) ∧
    (∀ c ∈ cs, evaluateAndQuery items (andGroup (cs ++ [c])) =
      evaluateAndQuery items (andGroup cs)) := by
  constructor
  · intro cs' hp
    exact evaluateAndQuery_same_members items cs cs' result hr (fun c => hp.mem_iff)
  · intro c hc
    apply evaluateAndQuery_same_members items cs (cs ++ [c]) result hr
    intro d
    simp only [List.mem_append, List.mem_singleton]
    constructor
    · rintro (h | rfl)
      · exact h
      · exact hc
    · exact Or.inl

theorem and_group_order_independent_witness :
    evaluateAndQuery scenarioItems
        (andGroup [leaf "Dimensions" "Area" "greater_than" "10",
          leaf "Constraints" "Level" "equals" "Level 1"]) =
      evaluateAndQuery scenarioItems
        (andGroup [leaf "Constraints" "Level" "equals" "Level 1",
          leaf "Dimensions" "Area" "greater_than" "10"]) :=
  (and_group_order_independent scenarioItems
    [leaf "Constraints" "Level" "equals" "Level 1", leaf "Dimensions" "Area" "greater_than" "10"]
    (childIds scenarioItems) (by decide)).1 _ (List.Perm.swap _ _ _)

theorem evaluateChild_group (items : List Item) (fields : List (String × JSVal))
    (logic : String) (children : List JSVal)
    (hl : fields.lookup "logic" = some (.str logic)) (hlogic : logic = "AND" ∨ logic = "OR")
    (hc : fields.lookup "conditions" = some (.arr children)) :
    evaluateChild items (.obj fields) =
      if strictEqStr (.str logic) "AND" then evaluateAndQuery items (.obj fields)
      else evaluateOrQuery items (.obj fields) := by
  have ht : truthy (.str logic) = true := by rcases hlogic with rfl | rfl <;> decide
  have hta : truthy (.arr children) = true := rfl
  simp only [evaluateChild, evalChild, getField, hl, hc, Option.getD_some, bind, Except.bind,
    ht, hta, Bool.and_true, if_true]

/-- Claim C25, amended: a group whose `logic` is `'AND'` or `'OR'` and that
evaluates without throwing means the same at top level and nested; the OR group
and the AND group over that one child return the identifiers that the group
returns at top level. -/
theorem group_same_nested (items : List Item) (fields : List (String × JSVal))
    (logic : String) (children : List JSVal) (ids : List String)
    (hl : fields.lookup "logic" = some (.str logic)) (hlogic : logic = "AND" ∨ logic = "OR")
    (hc : fields.lookup "conditions" = some (.arr children))
    (h : evaluateChild items (.obj fields) = .ok ids) :
    evaluateQueryOnModel items (.obj fields) = .ok ids ∧
    (∃ orIds, evaluateQueryOnModel items (orGroup [.obj fields]) = .ok orIds ∧
      ∀ id, id ∈ orIds ↔ id ∈ ids) ∧
    (∃ andIds, evaluateQueryOnModel items (andGroup [.obj fields]) = .ok andIds ∧
      ∀ id, id ∈ andIds ↔ id ∈ ids) := by
  have hsub := evaluateChild_subset h
  have hor : evaluateOrQuery items (orGroup [.obj fields]) = .ok (setAddAll [] ids) := by
    have hq : getField (orGroup [.obj fields]) "conditions" = .ok (.arr [.obj fields]) := rfl
    rw [evaluateOrQuery_eq, hq]
    simp only [bind, Except.bind, iterate, orLoop, h, pure, Except.pure]
  have hand : evaluateAndQuery items (andGroup [.obj fields]) =
      .ok ((items.map (·.externalId)).filter fun id => decide (∀ c ∈ [JSVal.obj fields],
        id ∈ (fun _ => ids) c)) :=
    evaluateAndQuery_andGroup items [.obj fields] (fun _ => ids)
      (by intro c hc; simp only [List.mem_singleton] at hc; subst hc; exact h)
  cases items with
  | nil =>
    have hnil : ids = [] := by
      cases ids with
      | nil => rfl
      | cons a l => exact absurd (hsub (List.mem_cons_self a l)) (by simp)
    subst hnil
    exact ⟨rfl, ⟨[], rfl, fun _ => Iff.rfl⟩, ⟨[], rfl, fun _ => Iff.rfl⟩⟩
  | cons a l =>
    have hne : a :: l ≠ [] := by simp
    have htop : evaluateQueryOnModel (a :: l) (.obj fields) = .ok ids := by
      have ht : truthy (.str logic) = true := by rcases hlogic with rfl | rfl <;> decide
      rw [evaluateQueryOnModel_logic (a :: l) fields (.str logic) hne hl ht]
      rw [evaluateChild_group (a :: l) fields logic children hl hlogic hc] at h
      rcases hlogic with rfl | rfl
      · rw [if_pos (by decide)] at h ⊢
        exact h
      · rw [if_neg (by decide)] at h
        rw [if_neg (by decide), if_pos (by decide)]
        exact h
    refine ⟨htop, ⟨setAddAll [] ids, ?_, ?_⟩,
      ⟨(List.map (·.externalId) (a :: l)).filter fun id =>
        decide (∀ c ∈ [JSVal.obj fields], id ∈ (fun _ => ids) c), ?_, ?_⟩⟩
    · have hd := evaluateQueryOnModel_logic (a :: l)
        [("logic", .str "OR"), ("conditions", .arr [.obj fields])] (.str "OR") hne rfl
        (by decide)
      rw [if_neg (by decide), if_pos (by decide)] at hd
      exact hd.trans hor
    · intro id
      rw [mem_setAddAll]
      simp
    · have hd := evaluateQueryOnModel_logic (a :: l)
        [("logic", .str "AND"), ("conditions", .arr [.obj fields])] (.str "AND") hne rfl
        (by decide)
      rw [if_pos (by decide)] at hd
      exact hd.trans hand
    · intro id
      simp only [List.mem_filter, List.mem_singleton, forall_eq, decide_eq_true_eq]
      exact ⟨fun hx => hx.2, fun hx => ⟨hsub hx, hx⟩⟩

theorem group_same_nested_witness :
    evaluateQueryOnModel scenarioItems nestedScenarioQuery = .ok ["c"] ∧
    (∃ orIds, evaluateQueryOnModel scenarioItems (orGroup [nestedScenarioQuery]) = .ok orIds ∧
      ∀ id, id ∈ orIds ↔ id ∈ ["c"]) ∧
    (∃ andIds, evaluateQueryOnModel scenarioItems (andGroup [nestedScenarioQuery]) =
        .ok andIds ∧
      ∀ id, id ∈ andIds ↔ id ∈ ["c"]) :=
  group_same_nested scenarioItems
    [("logic", .str "AND"), ("conditions",
      .arr [leaf "Constraints" "Level" "equals" "Level 1",
            leaf "Dimensions" "Area" "greater_than" "10"])]
    "AND" _ ["c"] rfl (Or.inl rfl) rfl (by decide)

/-- Claim C25 as stated fails: for the `logic` value `'XOR'` the group is an
AND group at top level and an OR group when nested; on the scenario items it
returns `c` at top level and `a`, `c`, `d` inside an OR group. -/
theorem group_same_nested_counterexample :
    evaluateQueryOnModel scenarioItems xorScenarioGroup = .ok ["c"] ∧
    evaluateQueryOnModel scenarioItems (orGroup [xorScenarioGroup]) =
      .ok ["a", "c", "d"] := by
  decide

theorem contains_or_not (v t : JSVal) :
    evaluatePropertyValue v (.str "does_not_contain") t =
      (isPresent v && !evaluatePropertyValue v (.str "contains") t) ∧
    (evaluatePropertyValue v (.str "contains") t = true → isPresent v = true) := by
  cases v <;> simp [evaluatePropertyValue, strictEqStr, isPresent]

/-- Claim C28, amended: over a collection with pairwise distinct identifiers,
for a category and a field that are not empty and are not names inherited from
`Object.prototype`, and for any operand, the scanner results for `contains` and
for `does_not_contain` have no identifier in common, and together they hold
exactly the identifiers of the items whose value at the category and field is
neither absent nor `null`. -/
theorem contains_partition (items : List Item) (category field operand : JSVal)
    (hc : truthy category = true) (hf : truthy field = true)
    (_hcn : notInherited category = true) (_hfn : notInherited field = true)
    (hd : (items.map (·.externalId)).Nodup) :
    ∃ yes no : List String,
      evaluateConditionOnModel items (conditionOf category field (.str "contains") operand) =
        .ok yes ∧
      evaluateConditionOnModel items
        (conditionOf category field (.str "does_not_contain") operand) = .ok no ∧
      (∀ id, ¬ (id ∈ yes ∧ id ∈ no)) ∧
      (∀ id, id ∈ yes ∨ id ∈ no ↔
        id ∈ (items.filter fun item =>
          isPresent (findPropertyValue item.properties category field)).map
          (·.externalId)) := by
  refine ⟨_, _, evaluateConditionOnModel_conditionOf items _ _ _ _ hc hf (by decide),
    evaluateConditionOnModel_conditionOf items _ _ _ _ hc hf (by decide), ?_, ?_⟩
  · rintro id ⟨h1, h2⟩
    obtain ⟨i1, hi1, he1⟩ := List.mem_map.mp h1
    obtain ⟨i2, hi2, he2⟩ := List.mem_map.mp h2
    have heq : i1 = i2 :=
      List.inj_on_of_nodup_map hd (List.mem_filter.mp hi1).1 (List.mem_filter.mp hi2).1
        (he1.trans he2.symm)
    subst heq
    have m1 : itemMatches category field (.str "contains") operand i1 = true :=
      (List.mem_filter.mp hi1).2
    have m2 : itemMatches category field (.str "does_not_contain") operand i1 = true :=
      (List.mem_filter.mp hi2).2
    simp only [itemMatches] at m1 m2
    rw [(contains_or_not _ _).1, m1] at m2
    simp at m2
  · intro id
    constructor
    · rintro (h | h)
      · obtain ⟨i, hi, he⟩ := List.mem_map.mp h
        refine List.mem_map.mpr ⟨i, List.mem_filter.mpr ⟨(List.mem_filter.mp hi).1, ?_⟩, he⟩
        exact (contains_or_not _ _).2 (List.mem_filter.mp hi).2
      · obtain ⟨i, hi, he⟩ := List.mem_map.mp h
        refine List.mem_map.mpr ⟨i, List.mem_filter.mpr ⟨(List.mem_filter.mp hi).1, ?_⟩, he⟩
        have m2 : itemMatches category field (.str "does_not_contain") operand i = true :=
          (List.mem_filter.mp hi).2
        simp only [itemMatches] at m2
        rw [(contains_or_not _ _).1] at m2
        simp only [Bool.and_eq_true] at m2
        exact m2.1
    · intro h
      obtain ⟨i, hi, he⟩ := List.mem_map.mp h
      have hp : isPresent (findPropertyValue i.properties category field) = true :=
        (List.mem_filter.mp hi).2
      have hmem := (List.mem_filter.mp hi).1
      cases hm : evaluatePropertyValue (findPropertyValue i.properties category field)
          (.str "contains") operand with
      | true =>
        left
        exact List.mem_map.mpr ⟨i, List.mem_filter.mpr ⟨hmem, by simpa [itemMatches] using hm⟩,
          he⟩
      | false =>
        right
        refine List.mem_map.mpr ⟨i, List.mem_filter.mpr ⟨hmem, ?_⟩, he⟩
        simp only [itemMatches]
        rw [(contains_or_not _ _).1, hp, hm]
        rfl

theorem contains_partition_witness :
    ∃ yes no : List String,
      evaluateConditionOnModel scenarioItems
        (conditionOf (.str "Constraints") (.str "Level") (.str "contains") (.str "1")) =
        .ok yes ∧
      evaluateConditionOnModel scenarioItems
        (conditionOf (.str "Constraints") (.str "Level") (.str "does_not_contain")
          (.str "1")) = .ok no ∧
      (∀ id, ¬ (id ∈ yes ∧ id ∈ no)) ∧
      (∀ id, id ∈ yes ∨ id ∈ no ↔
        id ∈ (scenarioItems.filter fun item =>
          isPresent (findPropertyValue item.properties (.str "Constraints")
            (.str "Level"))).map (·.externalId)) :=
  contains_partition scenarioItems (.str "Constraints") (.str "Level") (.str "1")
    (by decide) (by decide) (by decide) (by decide) (by decide)

/-- Claim C28 as stated fails for the empty category name: the condition is not
evaluated and both results are empty, although the item has a value at the
category `""` and the field `x`. -/
theorem contains_partition_counterexample :
    evaluateConditionOnModel emptyCategoryItems (leaf "" "x" "contains" "v") = .ok [] ∧
    evaluateConditionOnModel emptyCategoryItems (leaf "" "x" "does_not_contain" "v") =
      .ok [] ∧
    (emptyCategoryItems.filter fun item =>
      isPresent (findPropertyValue item.properties (.str "") (.str "x"))).map
      (·.externalId) = ["e"] := by
  decide

theorem takeWhile_append_stop (p : Char → Bool) (s t : List Char) (c : Char)
    (hc : p c = false) : (s ++ c :: t).takeWhile p = s.takeWhile p := by
  induction s with
  | nil => simp [List.takeWhile, hc]
  | cons a s ih =>
    simp only [List.cons_append, List.takeWhile_cons, ih]

theorem dropWhile_append_stop (p : Char → Bool) (s t : List Char) (c : Char)
    (hc : p c = false) : (s ++ c :: t).dropWhile p = s.dropWhile p ++ c :: t := by
  induction s with
  | nil => simp [List.dropWhile, hc]
  | cons a s ih =>
    simp only [List.cons_append, List.dropWhile_cons, ih]
    split <;> rfl

theorem dropWhile_append_of_ne_nil (p : Char → Bool) (s t : List Char)
    (h : s.dropWhile p ≠ []) : (s ++ t).dropWhile p = s.dropWhile p ++ t := by
  induction s with
  | nil => simp at h
  | cons a s ih =>
    simp only [List.cons_append, List.dropWhile_cons] at h ⊢
    split
    · rename_i hp
      simp only [hp, if_true] at h
      exact ih h
    · rfl

theorem isPrefixOf_append_stop (p r t : List Char) (c : Char) (hc : c ∉ p) :
    p.isPrefixOf (r ++ c :: t) = p.isPrefixOf r := by
  induction p generalizing r with
  | nil => simp
  | cons a p ih =>
    have hac : (a == c) = false := by
      simp only [beq_eq_false_iff_ne, ne_eq]
      intro h
      exact hc (by simp [h])
    have hcp : c ∉ p := fun h => hc (List.mem_cons_of_mem _ h)
    cases r with
    | nil => simp [List.isPrefixOf, hac]
    | cons b r =>
      have := ih r hcp
      simp only [List.cons_append, List.isPrefixOf]
      rw [show r.append (c :: t) = r ++ c :: t from rfl, this]

theorem lexSign_append_space (s t : List Char) :
    lexSign (s ++ ' ' :: t) = ((lexSign s).1, (lexSign s).2 ++ ' ' :: t) := by
  cases s with
  | nil => rfl
  | cons a s =>
    by_cases h1 : a = '-'
    · subst h1; rfl
    · by_cases h2 : a = '+'
      · subst h2; rfl
      · have e1 : ∀ l, lexSign (a :: l) = (false, a :: l) := by
          intro l
          unfold lexSign
          split
          · rename_i heq
            exact absurd (List.cons.inj heq).1 h1
          · rename_i heq
            exact absurd (List.cons.inj heq).1 h2
          · rfl
        rw [List.cons_append, e1, e1]
        rfl

theorem lexExponent_append_space (s t : List Char) :
    lexExponent (s ++ ' ' :: t) = lexExponent s := by
  cases s with
  | nil => rfl
  | cons a s =>
    simp only [List.cons_append, lexExponent, lexSign_append_space,
      takeWhile_append_stop Char.isDigit _ t ' ' (by decide)]

theorem lexDecimal_append_space (s t : List Char) :
    lexDecimal (s ++ ' ' :: t) = lexDecimal s := by
  have hd : Char.isDigit ' ' = false := by decide
  have hI : ' ' ∉ "Infinity".data := by decide
  simp only [lexDecimal, lexSign_append_space, isPrefixOf_append_stop _ _ t ' ' hI,
    takeWhile_append_stop Char.isDigit _ t ' ' hd,
    dropWhile_append_stop Char.isDigit _ t ' ' hd]
  split
  · rfl
  · cases hr : List.dropWhile Char.isDigit (lexSign s).2 with
    | nil => simp [lexExponent]
    | cons a r =>
      by_cases ha : a = '.'
      · subst ha
        simp only [List.cons_append, takeWhile_append_stop Char.isDigit _ t ' ' hd,
          dropWhile_append_stop Char.isDigit _ t ' ' hd, lexExponent_append_space]
      · have m1 : ∀ l : List Char, (match a :: l with
            | '.' :: u => List.takeWhile Char.isDigit u
            | _ => []) = [] := by
          intro l
          split
          · rename_i heq
            exact absurd (List.cons.inj heq).1 ha
          · rfl
        have m2 : ∀ l : List Char, (match a :: l with
            | '.' :: u => List.dropWhile Char.isDigit u
            | _ => a :: l) = a :: l := by
          intro l
          split
          · rename_i heq
            exact absurd (List.cons.inj heq).1 ha
          · rfl
        simp only [List.cons_append, m1, m2]
        rw [← List.cons_append, lexExponent_append_space]

theorem parseFloatStr_append_space (s t : String)
    (h : (parseFloatStr s).isNaN = false) :
    parseFloatStr (s ++ " " ++ t) = parseFloatStr s := by
  have hne : s.data.dropWhile isStrWhiteSpace ≠ [] := by
    intro he
    simp [parseFloatStr, he, lexDecimal, lexSign, JSNum.isNaN] at h
  have hdata : (s ++ " " ++ t).data = s.data ++ ' ' :: t.data := by
    simp [String.data_append]
  simp only [parseFloatStr, hdata, dropWhile_append_of_ne_nil _ _ _ hne,
    lexDecimal_append_space]

theorem evaluate_str (v : String) (operator t : JSVal) :
    evaluatePropertyValue (.str v) operator t =
      (if strictEqStr operator "contains" then
        includes (toLowerCase v) (toLowerCase (toStr t))
      else if strictEqStr operator "does_not_contain" then
        !includes (toLowerCase v) (toLowerCase (toStr t))
      else if strictEqStr operator "starts_with" then
        startsWith (toLowerCase v) (toLowerCase (toStr t))
      else if strictEqStr operator "equals" then
        toLowerCase v == toLowerCase (toStr t) ||
          (!(parseFloatStr v).isNaN && !(parseFloat t).isNaN &&
            JSNum.eq (parseFloatStr v) (parseFloat t))
      else if strictEqStr operator "greater_than" then
        !(parseFloatStr v).isNaN && !(parseFloat t).isNaN &&
          JSNum.lt (parseFloat t) (parseFloatStr v)
      else if strictEqStr operator "less_than" then
        !(parseFloatStr v).isNaN && !(parseFloat t).isNaN &&
          JSNum.lt (parseFloatStr v) (parseFloat t)
      else if strictEqStr operator "greater_than_or_equal" then
        !(parseFloatStr v).isNaN && !(parseFloat t).isNaN &&
          JSNum.le (parseFloat t) (parseFloatStr v)
      else if strictEqStr operator "less_than_or_equal" then
        !(parseFloatStr v).isNaN && !(parseFloat t).isNaN &&
          JSNum.le (parseFloatStr v) (parseFloat t)
      else false) := rfl

/-- Claim C21: a string that parses as a number, followed by a space and any
text, parses as the same number; so with the text appended every ordering
operator gives the same result, and `equals` holds as soon as the operand
parses to that number.  `"20.0 m^2"` equals `"20"`, is greater than `"10"` and
is not greater than `"25"`. -/
theorem numeric_prefix_is_parsed (numeral text : String)
    (h : (parseFloatStr numeral).isNaN = false) :
    parseFloat (.str (numeral ++ " " ++ text)) = parseFloat (.str numeral) ∧
    (∀ op, op = "greater_than" ∨ op = "less_than" ∨ op = "greater_than_or_equal" ∨
        op = "less_than_or_equal" → ∀ t : JSVal,
      evaluatePropertyValue (.str (numeral ++ " " ++ text)) (.str op) t =
        evaluatePropertyValue (.str numeral) (.str op) t) ∧
    (∀ t : JSVal, (parseFloat t).isNaN = false →
      JSNum.eq (parseFloat (.str numeral)) (parseFloat t) = true →
      evaluatePropertyValue (.str (numeral ++ " " ++ text)) (.str "equals") t = true) ∧
    evaluatePropertyValue (.str "20.0 m^2") (.str "equals") (.str "20") = true ∧
    evaluatePropertyValue (.str "20.0 m^2") (.str "greater_than") (.str "10") = true ∧
    evaluatePropertyValue (.str "20.0 m^2") (.str "greater_than") (.str "25") = false := by
  have hp := parseFloatStr_append_space numeral text h
  refine ⟨?_, ?_, ?_, by decide, by decide, by decide⟩
  · simpa [parseFloat, toStr] using hp
  · intro op hop t
    rw [evaluate_str, evaluate_str, hp]
    rcases hop with rfl | rfl | rfl | rfl <;> rfl
  · intro t ht he
    rw [evaluate_str, hp]
    simp only [parseFloat, toStr] at he ht
    have h1 : strictEqStr (.str "equals") "contains" = false := by decide
    have h2 : strictEqStr (.str "equals") "does_not_contain" = false := by decide
    have h3 : strictEqStr (.str "equals") "starts_with" = false := by decide
    have h4 : strictEqStr (.str "equals") "equals" = true := by decide
    simp only [h1, h2, h3, h4, Bool.false_eq_true, if_false, if_true, h, parseFloat, ht, he,
      Bool.not_false, Bool.and_self, Bool.or_true]

theorem numeric_prefix_is_parsed_witness :
    parseFloat (.str ("12.5" ++ " " ++ "m^2")) = parseFloat (.str "12.5") :=
  (numeric_prefix_is_parsed "12.5" "m^2" (by decide)).1

theorem toLower_toLower (c : Char) : c.toLower.toLower = c.toLower := by
  by_cases h : c.toNat ≥ 65 ∧ c.toNat ≤ 90
  · obtain ⟨h1, h2⟩ := h
    have hv : ∀ n : Nat, 65 ≤ n → n ≤ 90 → c.toNat = n →
        c.toLower.toLower = c.toLower := by
      intro n hn1 hn2 hcn
      have hc : c = Char.ofNat n := by
        rw [← hcn]
        exact (Char.ofNat_toNat c).symm
      subst hc
      interval_cases n <;> rfl
    exact hv c.toNat h1 h2 rfl
  · have : c.toLower = c := by
      unfold Char.toLower
      rw [if_neg h]
    rw [this, this]

theorem toLowerCase_idem (s : String) : toLowerCase (toLowerCase s) = toLowerCase s := by
  have hf : Char.toLower ∘ Char.toLower = Char.toLower := by
    funext c
    exact toLower_toLower c
  simp [toLowerCase, hf]

theorem includesChars_iff (needle hay : List Char) :
    includesChars needle hay = true ↔ needle <:+: hay := by
  induction hay with
  | nil =>
    simp [includesChars, List.infix_nil]
  | cons c t ih =>
    simp only [includesChars, Bool.or_eq_true, ih, List.isPrefixOf_iff_prefix,
      List.infix_cons_iff]

theorem evaluateWith_str (lower : String → String) (v : String) (operator t : JSVal) :
    evaluatePropertyValueWith lower (.str v) operator t =
      (if strictEqStr operator "contains" then
        includes (lower v) (lower (toStr t))
      else if strictEqStr operator "does_not_contain" then
        !includes (lower v) (lower (toStr t))
      else if strictEqStr operator "starts_with" then
        startsWith (lower v) (lower (toStr t))
      else if strictEqStr operator "equals" then
        lower v == lower (toStr t) ||
          (!(parseFloatStr v).isNaN && !(parseFloat t).isNaN &&
            JSNum.eq (parseFloatStr v) (parseFloat t))
      else if strictEqStr operator "greater_than" then
        !(parseFloatStr v).isNaN && !(parseFloat t).isNaN &&
          JSNum.lt (parseFloat t) (parseFloatStr v)
      else if strictEqStr operator "less_than" then
        !(parseFloatStr v).isNaN && !(parseFloat t).isNaN &&
          JSNum.lt (parseFloatStr v) (parseFloat t)
      else if strictEqStr operator "greater_than_or_equal" then
        !(parseFloatStr v).isNaN && !(parseFloat t).isNaN &&
          JSNum.le (parseFloat t) (parseFloatStr v)
      else if strictEqStr operator "less_than_or_equal" then
        !(parseFloatStr v).isNaN && !(parseFloat t).isNaN &&
          JSNum.le (parseFloatStr v) (parseFloat t)
      else false) := rfl

/-- The evaluator is `evaluatePropertyValueWith` at the ASCII fold. -/
theorem evaluatePropertyValue_eq_with :
    evaluatePropertyValue = evaluatePropertyValueWith toLowerCase := rfl

/-- Claim C22, with the method `toLowerCase` of the runtime as the function
`lower`, of which two facts are used: lower-casing a lower-cased string changes
nothing, and a string of ASCII characters has its letters `A` to `Z` folded.
Then `contains`, `does_not_contain` and `starts_with` on two strings are the
block, no-block and prefix tests on the lower-cased strings, the result does not
change when the value or the operand is replaced by its lower-cased form, and
`"LEVEL 1"` contains and starts with `"level"`. -/
theorem string_operators_case_insensitive (lower : String → String)
    (hidem : ∀ x : String, lower (lower x) = lower x)
    (hascii : ∀ x : String, (∀ c ∈ x.data, c.toNat < 128) → lower x = toLowerCase x)
    (v s : String) :
    (evaluatePropertyValueWith lower (.str v) (.str "contains") (.str s) = true ↔
      (lower s).data <:+: (lower v).data) ∧
    (evaluatePropertyValueWith lower (.str v) (.str "does_not_contain") (.str s) = true ↔
      ¬ (lower s).data <:+: (lower v).data) ∧
    (evaluatePropertyValueWith lower (.str v) (.str "starts_with") (.str s) = true ↔
      (lower s).data <+: (lower v).data) ∧
    (∀ op, op = "contains" ∨ op = "does_not_contain" ∨ op = "starts_with" →
      evaluatePropertyValueWith lower (.str (lower v)) (.str op) (.str s) =
        evaluatePropertyValueWith lower (.str v) (.str op) (.str s) ∧
      evaluatePropertyValueWith lower (.str v) (.str op) (.str (lower s)) =
        evaluatePropertyValueWith lower (.str v) (.str op) (.str s)) ∧
    evaluatePropertyValueWith lower (.str "LEVEL 1") (.str "contains") (.str "level") = true ∧
    evaluatePropertyValueWith lower (.str "LEVEL 1") (.str "starts_with") (.str "level") =
      true := by
  have h1 : lower "LEVEL 1" = "level 1" := by
    rw [hascii "LEVEL 1" (by decide)]
    decide
  have h2 : lower "level" = "level" := by
    rw [hascii "level" (by decide)]
    decide
  refine ⟨?_, ?_, ?_, ?_, ?_, ?_⟩
  · rw [evaluateWith_str, if_pos (by decide)]
    exact includesChars_iff _ _
  · rw [evaluateWith_str, if_neg (by decide), if_pos (by decide)]
    simp only [Bool.not_eq_true', ← Bool.not_eq_true]
    exact not_congr (includesChars_iff _ _)
  · rw [evaluateWith_str, if_neg (by decide), if_neg (by decide), if_pos (by decide)]
    simp only [startsWith, toStr, List.isPrefixOf_iff_prefix]
  · intro op hop
    simp only [evaluateWith_str, toStr, hidem]
    rcases hop with rfl | rfl | rfl <;> exact ⟨rfl, rfl⟩
  · rw [evaluateWith_str, if_pos (by decide)]
    simp only [toStr, h1, h2]
    decide
  · rw [evaluateWith_str, if_neg (by decide), if_neg (by decide), if_pos (by decide)]
    simp only [toStr, h1, h2]
    decide

theorem string_operators_case_insensitive_witness :
    evaluatePropertyValueWith toLowerCase (.str (toLowerCase "Level 1")) (.str "contains")
        (.str "LEVEL") =
      evaluatePropertyValueWith toLowerCase (.str "Level 1") (.str "contains") (.str "LEVEL") ∧
    evaluatePropertyValueWith toLowerCase (.str "LEVEL 1") (.str "starts_with") (.str "level") =
      true :=
  ⟨((string_operators_case_insensitive toLowerCase toLowerCase_idem (fun _ _ => rfl)
      "Level 1" "LEVEL").2.2.2.1 "contains" (Or.inl rfl)).1,
   (string_operators_case_insensitive toLowerCase toLowerCase_idem (fun _ _ => rfl)
      "Level 1" "LEVEL").2.2.2.2.2⟩

theorem parseCSVLoop_plain (c : Char) (rest : List Char) (inQuotes : Bool)
    (cur : List Char) (res : List String) (hq : c ≠ '"') (hc : c ≠ ',' ∨ inQuotes = true) :
    parseCSVLoop (c :: rest) inQuotes cur res = parseCSVLoop rest inQuotes (cur ++ [c]) res := by
  have h1 : (c == '"') = false := by simpa using hq
  have h2 : (c == ',' && !inQuotes) = false := by
    rcases hc with h | h
    · have : (c == ',') = false := by simpa using h
      simp [this]
    · simp [h]
  rw [parseCSVLoop.eq_def]
  simp only [h1, h2, Bool.false_eq_true, if_false]

theorem parseCSVLoop_comma (rest cur : List Char) (res : List String) :
    parseCSVLoop (',' :: rest) false cur res =
      parseCSVLoop rest false [] (res ++ [String.mk cur]) := by
  rw [parseCSVLoop.eq_def]
  simp

theorem parseCSVLoop_escaped (rest cur : List Char) (inQuotes : Bool) (res : List String) :
    parseCSVLoop ('"' :: '"' :: rest) inQuotes cur res =
      parseCSVLoop rest inQuotes (cur ++ ['"']) res := by
  rw [parseCSVLoop.eq_def]
  simp

theorem parseCSVLoop_toggle (tail cur : List Char) (inQuotes : Bool) (res : List String)
    (ht : tail.head? ≠ some '"') :
    parseCSVLoop ('"' :: tail) inQuotes cur res = parseCSVLoop tail (!inQuotes) cur res := by
  cases tail with
  | nil =>
    rw [parseCSVLoop.eq_def]
    simp
  | cons d rest =>
    have hd : (d == '"') = false := by
      simp only [List.head?_cons, ne_eq, Option.some.injEq] at ht
      simpa using ht
    rw [parseCSVLoop.eq_def]
    simp [hd]

/-- Inside quotes, the doubled form of any text followed by the closing quote
reads back as the text. -/
theorem parseCSVLoop_quoted_body (body tail cur : List Char) (res : List String)
    (ht : tail.head? ≠ some '"') :
    parseCSVLoop ((body.flatMap fun c => if c == '"' then ['"', '"'] else [c]) ++ '"' :: tail)
      true cur res = parseCSVLoop tail false (cur ++ body) res := by
  induction body generalizing cur with
  | nil =>
    simp only [List.flatMap_nil, List.nil_append, List.append_nil]
    exact parseCSVLoop_toggle tail cur true res ht
  | cons a body ih =>
    by_cases ha : a = '"'
    · subst ha
      simp only [List.flatMap_cons, beq_self_eq_true, if_true, List.cons_append,
        List.nil_append]
      rw [parseCSVLoop_escaped, ih]
      simp
    · have hb : (a == '"') = false := by simpa using ha
      simp only [List.flatMap_cons, hb, Bool.false_eq_true, if_false, List.cons_append,
        List.nil_append]
      rw [parseCSVLoop_plain a _ true cur res ha (Or.inr rfl), ih]
      simp

/-- A quoted field that has a character other than the double quote reads back
as its text. -/
theorem parseCSVLoop_quoted (s tail cur : List Char) (res : List String)
    (hs : s.any (fun c => c != '"') = true) (ht : tail.head? ≠ some '"') :
    parseCSVLoop ('"' :: ((s.flatMap fun c => if c == '"' then ['"', '"'] else [c]) ++
      '"' :: tail)) false cur res = parseCSVLoop tail false (cur ++ s) res := by
  induction s generalizing cur with
  | nil => simp at hs
  | cons a s ih =>
    by_cases ha : a = '"'
    · subst ha
      have hs' : s.any (fun c => c != '"') = true := by simpa using hs
      simp only [List.flatMap_cons, beq_self_eq_true, if_true, List.cons_append,
        List.nil_append]
      rw [parseCSVLoop_escaped, ih (cur ++ ['"']) hs']
      simp
    · have hb : (a == '"') = false := by simpa using ha
      have hbody := parseCSVLoop_quoted_body (a :: s) tail cur res ht
      simp only [List.flatMap_cons, hb, Bool.false_eq_true, if_false, List.cons_append,
        List.nil_append] at hbody ⊢
      rw [parseCSVLoop_toggle _ cur false res (by simp [ha])]
      exact hbody

theorem parseCSVLoop_unquoted (s tail cur : List Char) (res : List String)
    (hs : s.any (fun c => c == ',' || c == '"' || c == '\n') = false) :
    parseCSVLoop (s ++ tail) false cur res = parseCSVLoop tail false (cur ++ s) res := by
  induction s generalizing cur with
  | nil => simp
  | cons a s ih =>
    simp only [List.any_cons, Bool.or_eq_false_iff] at hs
    obtain ⟨⟨⟨h1, h2⟩, _⟩, hrest⟩ := hs
    have ha1 : a ≠ ',' := by simpa using h1
    have ha2 : a ≠ '"' := by simpa using h2
    rw [List.cons_append, parseCSVLoop_plain a _ false cur res ha2 (Or.inl ha1), ih _ hrest]
    simp

/-- An escaped field, read from the start of a field, gives the field back. -/
theorem parseCSVLoop_field (s : String) (tail : List Char) (res : List String)
    (hs : notOnlyQuotes s = true) (ht : tail.head? ≠ some '"') :
    parseCSVLoop ((escapeCsv s).data ++ tail) false [] res =
      parseCSVLoop tail false s.data res := by
  unfold escapeCsv
  split
  · rename_i hsp
    have hne : s.data.any (fun c => c != '"') = true := by
      simp only [notOnlyQuotes, Bool.or_eq_true] at hs
      rcases hs with h | h
      · have : s.data = [] := by simpa using h
        rw [this] at hsp
        simp at hsp
      · exact h
    have := parseCSVLoop_quoted s.data tail [] res hne ht
    simpa using this
  · rename_i hsp
    have hsp' : s.data.any (fun c => c == ',' || c == '"' || c == '\n') = false := by
      simpa using hsp
    have := parseCSVLoop_unquoted s.data tail [] res hsp'
    simpa using this

theorem parseCSVRow_toCSVRow (stringify : JSVal → String) (q : Query)
    (hid : notOnlyQuotes q.id = true) (hname : notOnlyQuotes q.name = true)
    (hdesc : notOnlyQuotes q.description = true)
    (hjson : notOnlyQuotes (stringify q.conditions) = true)
    (hcolor : notOnlyQuotes q.color = true) :
    parseCSVRow (toCSVRow stringify q) =
      [q.id, q.name, q.description, stringify q.conditions, q.color] := by
  simp only [parseCSVRow, toCSVRow]
  rw [parseCSVLoop_field q.id _ [] hid (by simp), parseCSVLoop_comma,
    parseCSVLoop_field q.name _ _ hname (by simp), parseCSVLoop_comma,
    parseCSVLoop_field q.description _ _ hdesc (by simp), parseCSVLoop_comma,
    parseCSVLoop_field (stringify q.conditions) _ _ hjson (by simp), parseCSVLoop_comma]
  have := parseCSVLoop_field q.color [] ([] ++ [String.mk q.id.data] ++
    [String.mk q.name.data] ++ [String.mk q.description.data] ++
    [String.mk (stringify q.conditions).data]) hcolor (by simp)
  rw [List.append_nil] at this
  rw [this, parseCSVLoop.eq_def]
  simp

/-- The round trip through the CSV row holds for a query whose id, name,
description and color are strings none of which is made of double quotes only,
and whose conditions are read back by `JSON.parse` from their JSON text:
`fromCSVRow(toCSVRow(q))` has the same id, name, description and conditions,
also when a field has commas, double quotes or line feeds, and the same color
unless that is empty. -/
theorem csv_round_trip (stringify : JSVal → String) (parse : String → JS JSVal)
    (defaultColor : String) (q : Query)
    (hparse : parse (stringify q.conditions) = .ok q.conditions)
    (hid : notOnlyQuotes q.id = true) (hname : notOnlyQuotes q.name = true)
    (hdesc : notOnlyQuotes q.description = true)
    (hjson : notOnlyQuotes (stringify q.conditions) = true)
    (hcolor : notOnlyQuotes q.color = true) :
    fromCSVRow parse defaultColor (toCSVRow stringify q) =
      .ok { id := q.id, name := q.name, description := q.description,
            conditions := q.conditions,
            color := if q.color == "" then defaultColor else q.color } := by
  simp only [fromCSVRow, parseCSVRow_toCSVRow stringify q hid hname hdesc hjson hcolor, hparse,
    List.head?_cons]

/-- Claim C29 at the query whose name is one double quote: `toCSVRow` writes
the name as four double quotes, `parseCSVRow` takes them for two escaped quotes,
and `fromCSVRow` returns a query whose name is two double quotes, whatever the
default color.  A name with a comma and double quotes around a word comes back
as it was. -/
theorem csv_quote_only_field :
    toCSVRow stringifyEmptyObject quoteNamedQuery = "query_1,\"\"\"\",,{},#ff0000" ∧
    parseCSVRow (toCSVRow stringifyEmptyObject quoteNamedQuery) =
      ["query_1", "\"\"", "", "{}", "#ff0000"] ∧
    (∀ defaultColor : String,
      (fromCSVRow parseEmptyObject defaultColor
        (toCSVRow stringifyEmptyObject quoteNamedQuery)).map (·.name) = .ok "\"\"") ∧
    (fromCSVRow parseEmptyObject "#00ff00"
      (toCSVRow stringifyEmptyObject
        { id := "query_1", name := "walls, \"level\" 1", description := "",
          conditions := .obj [], color := "#ff0000" })).map (·.name) =
      .ok "walls, \"level\" 1" := by
  refine ⟨by decide, by decide, ?_, by decide⟩
  intro defaultColor
  have h : parseCSVRow (toCSVRow stringifyEmptyObject quoteNamedQuery) =
      ["query_1", "\"\"", "", "{}", "#ff0000"] := by decide
  simp only [fromCSVRow, h]
  rfl

theorem every_congr {f g : JSVal → JS Bool} (xs : List JSVal) (h : ∀ x ∈ xs, f x = g x) :
    every f xs = every g xs := by
  induction xs with
  | nil => rfl
  | cons x xs ih =>
    rw [every, every, h x (List.mem_cons_self _ _),
      ih fun y hy => h y (List.mem_cons_of_mem _ hy)]

theorem nonEmptyEvery_congr {f g : JSVal → JS Bool} (v : JSVal)
    (h : ∀ x : JSVal, x.depth < v.depth → f x = g x) :
    nonEmptyEvery f v = nonEmptyEvery g v := by
  cases v with
  | arr xs =>
    simp only [nonEmptyEvery]
    rw [every_congr xs fun x hx => h x (by
      have := depth_le_depthList hx
      simp only [JSVal.depth]
      omega)]
  | undefined => rfl
  | null => rfl
  | bool b => rfl
  | num n => rfl
  | str s => rfl
  | obj fs => rfl

theorem getField_depth {c inner : JSVal} {key : String} (h : getField c key = .ok inner) :
    inner.depth ≤ c.depth := by
  cases c with
  | obj fs =>
    simp only [getField, Except.ok.injEq] at h
    cases hl : fs.lookup key with
    | none =>
      simp only [hl, Option.getD_none] at h
      subst h
      simp [JSVal.depth]
    | some v =>
      simp only [hl, Option.getD_some] at h
      subst h
      have := depth_le_depthFields hl
      simp only [JSVal.depth]
      omega
  | undefined => simp [getField] at h
  | null => simp [getField] at h
  | bool b => simp only [getField, Except.ok.injEq] at h; subst h; simp [JSVal.depth]
  | num n => simp only [getField, Except.ok.injEq] at h; subst h; simp [JSVal.depth]
  | str s => simp only [getField, Except.ok.injEq] at h; subst h; simp [JSVal.depth]
  | arr ys => simp only [getField, Except.ok.injEq] at h; subst h; simp [JSVal.depth]

theorem hasValidStep_congr {f g : JSVal → JS Bool} (c : JSVal)
    (h : ∀ x : JSVal, x.depth < c.depth → f x = g x) :
    hasValidStep f c = hasValidStep g c := by
  have hself := nonEmptyEvery_congr c h
  unfold hasValidStep
  cases hg : getField c "conditions" with
  | error e => rfl
  | ok inner =>
    have hinner := nonEmptyEvery_congr inner
      (fun x hx => h x (lt_of_lt_of_le hx (getField_depth hg)))
    simp only [bind, Except.bind]
    rw [hinner, hself]

theorem hasValid_fuel (n : Nat) :
    ∀ (m : Nat) (c : JSVal), c.depth < n → c.depth < m → hasValidFuel n c = hasValidFuel m c := by
  induction n with
  | zero => intro m c h; omega
  | succ n ih =>
    intro m c hn hm
    cases m with
    | zero => omega
    | succ m =>
      rw [hasValidFuel, hasValidFuel]
      exact hasValidStep_congr c fun x hx => ih m x (by omega) (by omega)

/-- The method `hasValidConditions` satisfies its defining equation: the bound on
the nesting is never exhausted. -/
theorem hasValidConditions_eq (c : JSVal) :
    hasValidConditions c = hasValidStep hasValidConditions c := by
  unfold hasValidConditions
  rw [hasValidFuel]
  exact hasValidStep_congr c fun x hx => hasValid_fuel _ _ x (by omega) (by omega)

theorem leafLike_obj {s : JSVal} (h : leafLike s = .ok true) : ∃ fields, s = .obj fields := by
  cases s with
  | obj fs => exact ⟨fs, rfl⟩
  | undefined => simp [leafLike, getField, bind, Except.bind] at h
  | null => simp [leafLike, getField, bind, Except.bind] at h
  | bool b => simp [leafLike, getField, bind, Except.bind, pure, Except.pure, truthy] at h
  | num n => simp [leafLike, getField, bind, Except.bind, pure, Except.pure, truthy] at h
  | str t => simp [leafLike, getField, bind, Except.bind, pure, Except.pure, truthy] at h
  | arr ys => simp [leafLike, getField, bind, Except.bind, pure, Except.pure, truthy] at h

/-- A single condition wrapper around a simple condition object is left as it is. -/
theorem transform_wrapper {s : JSVal} (h : leafLike s = .ok true) :
    transformConditionsForBackend (wrapper s) = .ok (wrapper s) := by
  obtain ⟨fields, rfl⟩ := leafLike_obj h
  rfl

/-- A group whose `logic` is truthy and whose `conditions` is an array is left
as it is. -/
theorem transform_group (logic : JSVal) (xs : List JSVal) (h : truthy logic = true) :
    transformConditionsForBackend (.obj [("logic", logic), ("conditions", .arr xs)]) =
      .ok (.obj [("logic", logic), ("conditions", .arr xs)]) := by
  have h1 : getField (.obj [("logic", logic), ("conditions", .arr xs)]) "logic" = .ok logic := rfl
  have h2 : getField (.obj [("logic", logic), ("conditions", .arr xs)]) "conditions" =
      .ok (.arr xs) := rfl
  have h3 : truthy (.arr xs) = true := rfl
  simp only [transformConditionsForBackend, h1, h2, h, h3, bind, Except.bind, Bool.and_self,
    if_true, pure, Except.pure]

theorem transformObject_idempotent (c inner logic r : JSVal)
    (h0 : transformConditionsForBackend c = .ok r)
    (h : transformObject c inner logic = .ok r) :
    transformConditionsForBackend r = .ok r := by
  unfold transformObject at h
  cases hleaf : leafLike c with
  | error e => simp [hleaf, bind, Except.bind] at h
  | ok isLeaf =>
    simp only [hleaf, bind, Except.bind, pure, Except.pure] at h
    cases isLeaf with
    | true =>
      simp only [if_true, Except.ok.injEq] at h
      subst h
      exact transform_wrapper hleaf
    | false =>
      simp only [Bool.false_eq_true, if_false] at h
      split at h
      · rename_i single
        cases hsole : leafLike single with
        | error e => simp [hsole] at h
        | ok soleIsLeaf =>
          simp only [hsole] at h
          cases soleIsLeaf with
          | true =>
            simp only [if_true, Except.ok.injEq] at h
            subst h
            exact transform_wrapper hsole
          | false =>
            simp only [Bool.false_eq_true, if_false, Except.ok.injEq] at h
            subst h
            exact h0
      · simp only [Except.ok.injEq] at h
        subst h
        apply transform_group
        split
        · assumption
        · rfl
      · simp only [Except.ok.injEq] at h
        subst h
        exact h0

/-- Applying `transformConditionsForBackend` to its own result returns the
result unchanged. -/
theorem transform_idempotent (c r : JSVal) (h : transformConditionsForBackend c = .ok r) :
    transformConditionsForBackend r = .ok r := by
  have h0 := h
  unfold transformConditionsForBackend at h
  cases hl : getField c "logic" with
  | error e => simp [hl, bind, Except.bind] at h
  | ok logic =>
    cases hi : getField c "conditions" with
    | error e => simp [hl, hi, bind, Except.bind] at h
    | ok inner =>
      simp only [hl, hi, bind, Except.bind, pure, Except.pure] at h
      split at h
      · simp only [Except.ok.injEq] at h
        subst h
        exact h0
      · split at h
        · simp only [Except.ok.injEq] at h
          subst h
          exact h0
        · split at h
          · rename_i single
            cases hsole : leafLike single with
            | error e => simp [hsole] at h
            | ok soleIsLeaf =>
              simp only [hsole] at h
              cases soleIsLeaf with
              | true =>
                simp only [if_true, Except.ok.injEq] at h
                subst h
                exact transform_wrapper hsole
              | false =>
                simp only [Bool.false_eq_true, if_false] at h
                exact transformObject_idempotent _ _ _ _ h0 h
          · simp only [Except.ok.injEq] at h
            subst h
            exact transform_group _ _ rfl
          · exact transformObject_idempotent _ _ _ _ h0 h

/-- Claim C30 at the array of one group: it passes the validation and is returned as it is,
neither a single condition wrapper nor a group, where the array of one simple
condition becomes a wrapper and the array of two groups an AND group; the
backend answers the array with a failure and the AND group of its one element
with the matches of that element. -/
theorem array_of_one_group_untransformed :
    hasValidConditions arrayOfOneGroup = .ok true ∧
    transformConditionsForBackend arrayOfOneGroup = .ok arrayOfOneGroup ∧
    transformConditionsForBackend (.arr [leaf "Constraints" "Level" "equals" "Level 1"]) =
      .ok (wrapper (leaf "Constraints" "Level" "equals" "Level 1")) ∧
    transformConditionsForBackend (.arr [nestedScenarioQuery, nestedScenarioQuery]) =
      .ok (andGroup [nestedScenarioQuery, nestedScenarioQuery]) ∧
    (executeQuery [] scenarioItems arrayOfOneGroup).1 = .failure .typeError [] ∧
    (executeQuery [] scenarioItems (andGroup [nestedScenarioQuery])).1 =
      .success ["c"] "Query executed successfully" 1 :=
  ⟨by decide, rfl, rfl, rfl, by decide, by decide⟩

end APSFilter
